import Mathlib

/-!
Formal model of the network linter / repair tooling of the BGP lab
(`network_lint.py`, `network_repair.py`).

Text is modelled as `List Char`.  The regular-expression scans of the source
are embedded as explicit fuel-indexed scanners whose behaviour matches the
leftmost, non-overlapping semantics of `re.sub` / `re.findall` for the
concrete patterns used by the source.  Machine addresses are `Nat` with
explicit bounds at `2^32` where the `ipaddress` module would raise.
-/

set_option maxRecDepth 8192

namespace BGPLab

/-- Characters counted as word characters by the `\b` of Python's `re`
(ASCII letters, digits and underscore; the lab's documents are ASCII). -/
def isWordChar (c : Char) : Bool := c.isAlphanum || c = '_'

/-- Whitespace as matched by Python's `\s` / `str.strip` (the ASCII and
Latin-1 members; the lab's documents are ASCII). -/
def isPySpace (c : Char) : Bool :=
  c = ' ' || c = '\t' || c = '\n' || c = '\r' || c = '\x0b' || c = '\x0c' ||
  c = '\x1c' || c = '\x1d' || c = '\x1e' || c = '\x85' || c = '\xa0'

/-- Line terminators recognised by Python's `str.splitlines`. -/
def isLineBreak (c : Char) : Bool :=
  c = '\n' || c = '\r' || c = '\x0b' || c = '\x0c' ||
  c = '\x1c' || c = '\x1d' || c = '\x1e' || c = '\x85' ||
  c = '\u2028' || c = '\u2029'

/-- Characters of the `[\d\.]` character class. -/
def isDigitDot (c : Char) : Bool := c.isDigit || c = '.'

/-- Shorthand: the character list of a string literal. -/
def strC (s : String) : List Char := s.data

/-- Numeric value of a decimal digit character. -/
def digitVal (c : Char) : Nat := c.toNat - '0'.toNat

/-- Value of a run of decimal digit characters (most significant first). -/
def parseDigits (ds : List Char) : Nat := ds.foldl (fun a c => a * 10 + digitVal c) 0

/-- One octet as accepted by `ipaddress`: non-empty, no leading zero
(unless the octet is exactly "0"), value at most 255. -/
def parseOctet (ds : List Char) : Option Nat :=
  match ds with
  | [] => none
  | c :: cs =>
    if c = '0' && !cs.isEmpty then none
    else if (ds.all Char.isDigit) then
      let v := parseDigits ds
      if v ≤ 255 then some v else none
    else none

/-- Split a token at the literal dots, mirroring how `ipaddress` splits a
dotted-quad string. -/
def splitDots : List Char → List (List Char)
  | [] => [[]]
  | c :: cs =>
    if c = '.' then [] :: splitDots cs
    else
      match splitDots cs with
      | [] => [[c]]
      | p :: ps => (c :: p) :: ps

/-- Combine four octet values into the 32-bit address value. -/
def quadVal (v1 v2 v3 v4 : Nat) : Nat := ((v1 * 256 + v2) * 256 + v3) * 256 + v4

/-- `ipaddress.IPv4Address(token)` on a dotted token: four valid octets or
a `ValueError` (`none`). -/
def parseIPString (tok : List Char) : Option Nat :=
  match splitDots tok with
  | [a, b, c, d] =>
    match parseOctet a, parseOctet b, parseOctet c, parseOctet d with
    | some v1, some v2, some v3, some v4 => some (quadVal v1 v2 v3 v4)
    | _, _, _, _ => none
  | _ => none

/-- The decimal digit character for `n < 10`. -/
def digitChar (n : Nat) : Char := Char.ofNat ('0'.toNat + n)

/-- Decimal rendering of a number below 1000 (an octet, or a CIDR length). -/
def decChars (n : Nat) : List Char :=
  if n < 10 then [digitChar n]
  else if n < 100 then [digitChar (n / 10), digitChar (n % 10)]
  else [digitChar (n / 100), digitChar (n / 10 % 10), digitChar (n % 10)]

/-- `str(IPv4Address(n))`: the dotted-quad rendering of an address value. -/
def ipChars (n : Nat) : List Char :=
  decChars (n / 16777216) ++ '.' :: decChars (n / 65536 % 256) ++
    '.' :: decChars (n / 256 % 256) ++ '.' :: decChars (n % 256)

/-- A CIDR block: base address value and mask length
(`ipaddress.IPv4Network`). -/
structure Subnet where
  base : Nat
  plen : Nat
deriving DecidableEq

/-- `subnet.num_addresses`. -/
def numAddresses (s : Subnet) : Nat := 2 ^ (32 - s.plen)

/-- A well-formed IPv4 network as constructed by `ipaddress.ip_network`
with the default `strict=True`: mask length at most 32, base below `2^32`,
host bits all zero. -/
def Subnet.Valid (s : Subnet) : Prop :=
  s.plen ≤ 32 ∧ s.base < 4294967296 ∧ s.base % numAddresses s = 0

instance (s : Subnet) : Decidable s.Valid := by
  unfold Subnet.Valid; infer_instance

/-- `address in subnet` of `ipaddress`: the value lies between the network
address and the broadcast address. -/
def memSubnet (s : Subnet) (n : Nat) : Bool :=
  s.base ≤ n && n < s.base + numAddresses s

/-- The Python exceptions that the modelled code can raise. -/
inductive PyErr where
  | valueError : PyErr
  | runtimeError : PyErr
deriving DecidableEq

deriving instance DecidableEq for Except

/-! ### The dotted-quad token scan (`\b(?:\d{1,3}\.){3}\d{1,3}\b`)

For this specific pattern the backtracking regex engine behaves as
follows: a match can only start at a word boundary on a digit; each of the
first three groups must consume a maximal digit run of length 1..3
followed by a literal dot; the last group consumes a maximal digit run of
length 1..3 that must be followed by a non-word character or the end of
input.  Scanning is leftmost and non-overlapping, resuming after the end
of each match. -/

/-- One `\d{1,3}\.` group at the head of the input. -/
def matchOctetDot (cs : List Char) : Option (List Char × List Char) :=
  if 1 ≤ (cs.takeWhile Char.isDigit).length && (cs.takeWhile Char.isDigit).length ≤ 3 then
    match cs.dropWhile Char.isDigit with
    | '.' :: r => some (cs.takeWhile Char.isDigit, r)
    | _ => none
  else none

/-- `True` when the word boundary `\b` holds after a digit, i.e. the
remaining input is empty or starts with a non-word character. -/
def boundaryOK : List Char → Bool
  | [] => true
  | c :: _ => !isWordChar c

/-- The final `\d{1,3}\b` of the quad pattern. -/
def matchLastOctet (cs : List Char) : Option (List Char × List Char) :=
  if 1 ≤ (cs.takeWhile Char.isDigit).length && (cs.takeWhile Char.isDigit).length ≤ 3 then
    if boundaryOK (cs.dropWhile Char.isDigit) then
      some (cs.takeWhile Char.isDigit, cs.dropWhile Char.isDigit)
    else none
  else none

/-- A full dotted-quad match at the head of the input: the four octet
digit runs and the remaining input. -/
def matchQuad (cs : List Char) :
    Option (List Char × List Char × List Char × List Char × List Char) :=
  match matchOctetDot cs with
  | none => none
  | some (o1, r1) =>
    match matchOctetDot r1 with
    | none => none
    | some (o2, r2) =>
      match matchOctetDot r2 with
      | none => none
      | some (o3, r3) =>
        match matchLastOctet r3 with
        | none => none
        | some (o4, r4) => some (o1, o2, o3, o4, r4)

/-- The text of a matched quad token (`match.group(0)`). -/
def quadTok (o1 o2 o3 o4 : List Char) : List Char :=
  o1 ++ '.' :: o2 ++ '.' :: o3 ++ '.' :: o4

/-- The `repl` closure of `replace_ips`: parse the matched token with
`ipaddress` (a `ValueError` propagates), and if the address lies in
`old_subnet` return the translated address
`new_subnet.network_address + offset` (overflow past `2^32` raises), else
return the token unchanged.  The flag records whether a replacement
happened. -/
def replTok (old new : Subnet) (o1 o2 o3 o4 : List Char) :
    Except PyErr (List Char × Bool) :=
  match parseIPString (quadTok o1 o2 o3 o4) with
  | none => .error .valueError
  | some ip =>
    if memSubnet old ip then
      let newIP := new.base + (ip - old.base)
      if newIP < 4294967296 then .ok (ipChars newIP, true)
      else .error .valueError
    else .ok (quadTok o1 o2 o3 o4, false)

/-- The `re.sub` scan of `replace_ips`.  `prevWord` records whether the
previous character of the original text was a word character (so that the
leading `\b` can be decided); fuel is at least the input length. -/
def replaceIPsGo (old new : Subnet) : Nat → Bool → List Char →
    Except PyErr (List Char × Bool)
  | _, _, [] => .ok ([], false)
  | 0, _, cs => .ok (cs, false)
  | fuel + 1, prevWord, c :: cs =>
    if !prevWord && c.isDigit then
      match matchQuad (c :: cs) with
      | some (o1, o2, o3, o4, rest) =>
        match replTok old new o1 o2 o3 o4 with
        | .error e => .error e
        | .ok (tok, ch) =>
          match replaceIPsGo old new fuel true rest with
          | .error e => .error e
          | .ok (out, ch2) => .ok (tok ++ out, ch || ch2)
      | none =>
        match replaceIPsGo old new fuel (isWordChar c) cs with
        | .error e => .error e
        | .ok (out, ch) => .ok (c :: out, ch)
    else
      match replaceIPsGo old new fuel (isWordChar c) cs with
      | .error e => .error e
      | .ok (out, ch) => .ok (c :: out, ch)

/-- `replace_ips(text, old_subnet, new_subnet)` of `network_repair.py`
(and identically of `network_lint.py`): rewrite each dotted-quad token inside
`old_subnet` by its offset translation, returning the new text and the
changed flag; an invalid token raises `ValueError`. -/
def replaceIPs (text : List Char) (old new : Subnet) :
    Except PyErr (List Char × Bool) :=
  replaceIPsGo old new text.length false text

/-- The `re.findall` scan of `find_ips` (`network_repair.py`): all
dotted-quad tokens of the text, in order. -/
def findIPsGo : Nat → Bool → List Char → List (List Char)
  | _, _, [] => []
  | 0, _, _ => []
  | fuel + 1, prevWord, c :: cs =>
    if !prevWord && c.isDigit then
      match matchQuad (c :: cs) with
      | some (o1, o2, o3, o4, rest) => quadTok o1 o2 o3 o4 :: findIPsGo fuel true rest
      | none => findIPsGo fuel (isWordChar c) cs
    else findIPsGo fuel (isWordChar c) cs

/-- `find_ips(text)`. -/
def findIPs (text : List Char) : List (List Char) := findIPsGo text.length false text

/-- A dotted-quad token that parses as an IPv4 address lying outside the
given subnet (the situation in which `replace_ips` must leave it alone). -/
def tokenValidOutside (old : Subnet) (tok : List Char) : Bool :=
  match parseIPString tok with
  | some k => !memSubnet old k
  | none => false

/-! ### Line-based document model

`str.splitlines` and `"\n".join(lines) + "\n"`, as used by
`dedupe_networks_section` and the other line-oriented passes. -/

/-- `str.splitlines`: each step takes the maximal terminator-free prefix as
a line and drops the terminator (`\r\n` counts as one terminator); fuel is
at least the text length. -/
def splitLinesGo : Nat → List Char → List (List Char)
  | 0, [] => []
  | _ + 1, [] => []
  | 0, c :: cs => [c :: cs]
  | fuel + 1, c :: cs =>
    match (c :: cs).dropWhile (fun x => !isLineBreak x) with
    | [] => [(c :: cs).takeWhile (fun x => !isLineBreak x)]
    | t :: r =>
      (c :: cs).takeWhile (fun x => !isLineBreak x) ::
        splitLinesGo fuel (if t = '\r' && r.headD ' ' = '\n' then r.tail else r)

/-- `text.splitlines()`. -/
def splitLines (text : List Char) : List (List Char) := splitLinesGo text.length text

/-- `"\n".join(lines)`. -/
def joinNL : List (List Char) → List Char
  | [] => []
  | [l] => l
  | l :: ls => l ++ '\n' :: joinNL ls

/-- Literal prefix match: `matchLit cs pat = some rest` when `cs = pat ++ rest`. -/
def matchLit : List Char → List Char → Option (List Char)
  | cs, [] => some cs
  | [], _ :: _ => none
  | c :: cs, p :: ps => if c = p then matchLit cs ps else none

/-- `re.match(^<pat>\s*$, line)` for a literal `pat`. -/
def matchHeaderLine (l pat : List Char) : Bool :=
  match matchLit l pat with
  | some r => r.all isPySpace
  | none => false

/-- `re.match(^networks:\s*$, line)`. -/
def matchNetworksHeader (l : List Char) : Bool := matchHeaderLine l (strC "networks:")

/-- `re.match(^(\s{2})([a-zA-Z0-9_]+):\s*$, line)`, returning the key. -/
def matchTwoSpaceKey (l : List Char) : Option (List Char) :=
  match l with
  | w1 :: w2 :: rest =>
    if isPySpace w1 && isPySpace w2 then
      if (rest.takeWhile isWordChar).isEmpty then none
      else
        match rest.dropWhile isWordChar with
        | ':' :: tail => if tail.all isPySpace then some (rest.takeWhile isWordChar) else none
        | _ => none
    else none
  | _ => none

/-- `re.match(^[^ \t], line)`. -/
def breakNonIndent (l : List Char) : Bool :=
  match l with
  | [] => false
  | c :: _ => !(c = ' ' || c = '\t')

/-- The inner skip loop of `dedupe_networks_section`: drop lines of a
duplicate block until a two-space key line or a non-indented line. -/
def dedupeSkip : Nat → List (List Char) → List (List Char)
  | _, [] => []
  | 0, ls => ls
  | fuel + 1, l :: ls =>
    if (matchTwoSpaceKey l).isSome || breakNonIndent l then l :: ls
    else dedupeSkip fuel ls

/-- The main loop of `dedupe_networks_section` over the line list.
`inNet` is `in_networks` (never reset once set), `seen` is `seen_keys`. -/
def dedupeGo : Nat → Bool → List (List Char) → List (List Char) → List (List Char)
  | _, _, _, [] => []
  | 0, _, _, ls => ls
  | fuel + 1, inNet, seen, l :: ls =>
    if matchNetworksHeader l then l :: dedupeGo fuel true seen ls
    else
      if inNet then
        match matchTwoSpaceKey l with
        | some key =>
          if seen.contains key then dedupeGo fuel inNet seen (dedupeSkip ls.length ls)
          else l :: dedupeGo fuel inNet (key :: seen) ls
        | none => l :: dedupeGo fuel inNet seen ls
      else l :: dedupeGo fuel inNet seen ls

/-- `dedupe_networks_section(compose_text)` (`network_lint.py`). -/
def dedupeNetworksSection (text : List Char) : List Char :=
  joinNL (dedupeGo (splitLines text).length false [] (splitLines text)) ++ ['\n']

/-! ### Free-subnet selection (`pick_unused_subnets`) -/

/-- `candidate.subnets(new_prefix=newPlen)`: the consecutive blocks of the
requested size carved out of the pool, in address order. -/
def subnetsOfPool (pool : Subnet) (newPlen : Nat) : List Subnet :=
  (List.range (2 ^ (newPlen - pool.plen))).map
    (fun i => Subnet.mk (pool.base + i * 2 ^ (32 - newPlen)) newPlen)

/-- `a.overlaps(b)` of `ipaddress`: the two address ranges intersect. -/
def overlapsB (a b : Subnet) : Bool :=
  a.base < b.base + numAddresses b && b.base < a.base + numAddresses a

/-- The selection loop of `pick_unused_subnets`: skip candidates that
overlap a used network, append the others, stop as soon as `count` have
been collected. -/
def pickFree (used : List Subnet) (count : Nat) : List Subnet → List Subnet → List Subnet
  | acc, [] => acc
  | acc, c :: cs =>
    if used.any (fun u => overlapsB c u) then pickFree used count acc cs
    else
      if count ≤ acc.length + 1 then acc ++ [c]
      else pickFree used count (acc ++ [c]) cs

/-- `pick_unused_subnets(used, count, candidate_cidr, new_prefix)`
(`network_lint.py`): raises when fewer than `count` free blocks exist. -/
def pickUnusedSubnets (used : List Subnet) (count : Nat) (candidate : Subnet)
    (newPlen : Nat) : Except PyErr (List Subnet) :=
  if newPlen < candidate.plen then .error .valueError
  else
    if (pickFree used count [] (subnetsOfPool candidate newPlen)).length < count then
      .error .runtimeError
    else .ok (pickFree used count [] (subnetsOfPool candidate newPlen))

/-! ### Gateway-collision fixing (`fix_gateway_ips_in_compose`) -/

/-- One recorded `[fix]` message of `fix_gateway_ips_in_compose`,
carrying the gateway address, the substitute address and the subnet. -/
structure GwFix where
  gw : Nat
  safe : Nat
  net : Subnet
deriving DecidableEq

/-- The substitute-address offset of `fix_gateway_ips_in_compose`:
10 when the subnet has more than 16 addresses, else 2. -/
def safeOffset (net : Subnet) : Nat := if 16 < numAddresses net then 10 else 2

/-- The `re.subn` scan for one subnet: replace every occurrence of
`ipv4_address:` followed by whitespace, the gateway's dotted quad, and a
word boundary; the captured prefix and whitespace are kept and the match
count recorded. -/
def gwPassGo (gwStr safeStr : List Char) : Nat → List Char → List Char × Nat
  | _, [] => ([], 0)
  | 0, cs => (cs, 0)
  | fuel + 1, c :: cs =>
    match matchLit (c :: cs) (strC "ipv4_address:") with
    | some afterLit =>
      match matchLit (afterLit.dropWhile isPySpace) gwStr with
      | some afterGw =>
        if boundaryOK afterGw then
          let r := gwPassGo gwStr safeStr fuel afterGw
          (strC "ipv4_address:" ++ afterLit.takeWhile isPySpace ++ safeStr ++ r.1, r.2 + 1)
        else
          let r := gwPassGo gwStr safeStr fuel cs
          (c :: r.1, r.2)
      | none =>
        let r := gwPassGo gwStr safeStr fuel cs
        (c :: r.1, r.2)
    | none =>
      let r := gwPassGo gwStr safeStr fuel cs
      (c :: r.1, r.2)

/-- The per-subnet body of `fix_gateway_ips_in_compose`: computing
`network_address + 1` or `network_address + offset` past `2^32` raises in
`ipaddress`; otherwise replace all matches and record one message per
replacement. -/
def fixGatewayPass (net : Subnet) (text : List Char) :
    Except PyErr (List Char × List GwFix) :=
  if net.base + 1 < 4294967296 ∧ net.base + safeOffset net < 4294967296 then
    .ok ((gwPassGo (ipChars (net.base + 1)) (ipChars (net.base + safeOffset net))
        text.length text).1,
      List.replicate (gwPassGo (ipChars (net.base + 1))
        (ipChars (net.base + safeOffset net)) text.length text).2
        (GwFix.mk (net.base + 1) (net.base + safeOffset net) net))
  else .error .valueError

/-- `fix_gateway_ips_in_compose(compose_text, subnets)` (`network_lint.py`):
fold the per-subnet pass over the subnet list, accumulating messages. -/
def fixGatewayIPs (text : List Char) : List Subnet → Except PyErr (List Char × List GwFix)
  | [] => .ok (text, [])
  | net :: rest =>
    match fixGatewayPass net text with
    | .error e => .error e
    | .ok (t1, m1) =>
      match fixGatewayIPs t1 rest with
      | .error e => .error e
      | .ok (t2, m2) => .ok (t2, m1 ++ m2)

/-! ### The compose linter (`lint_compose_ips`) -/

/-- A lint finding, one constructor per message shape of
`lint_compose_ips` (`notIPv4` is the isinstance branch, unreachable for
`[\d.]+` tokens but kept for fidelity). -/
inductive Finding where
  | invalidAddress (svc : Option (List Char)) (tok : List Char) : Finding
  | notIPv4 (svc : Option (List Char)) (tok : List Char) : Finding
  | outsideSubnets (svc : Option (List Char)) (ip : Nat) : Finding
  | gatewayCollision (svc : Option (List Char)) (ip : Nat) (nets : List Subnet) : Finding
deriving DecidableEq

/-- `line.strip()`. -/
def stripPy (l : List Char) : List Char :=
  ((l.dropWhile isPySpace).reverse.dropWhile isPySpace).reverse

/-- `re.match(^[a-zA-Z0-9_]+:\s*$, stripped)`, returning the key before
the colon. -/
def matchTopKey (stripped : List Char) : Option (List Char) :=
  if (stripped.takeWhile isWordChar).isEmpty then none
  else
    match stripped.dropWhile isWordChar with
    | ':' :: tail => if tail.all isPySpace then some (stripped.takeWhile isWordChar) else none
    | _ => none

/-- `re.search(ipv4_address:\s*([\d\.]+), stripped)`: the first captured
token, scanning left to right and resuming one position later on a failed
start. -/
def searchIPv4 : Nat → List Char → Option (List Char)
  | _, [] => none
  | 0, _ => none
  | fuel + 1, c :: cs =>
    match matchLit (c :: cs) (strC "ipv4_address:") with
    | some afterLit =>
      if ((afterLit.dropWhile isPySpace).takeWhile isDigitDot).isEmpty then
        searchIPv4 fuel cs
      else some ((afterLit.dropWhile isPySpace).takeWhile isDigitDot)
    | none => searchIPv4 fuel cs

/-- The `for net in subnets` loop of `lint_compose_ips` for one parsed
address: returns the accumulated `in_any` flag and the `gw_for` list.
For every subnet containing the address the loop computes
`gateway = net.network_address + 1`; for a containing subnet whose base
is 255.255.255.255 that addition overflows and `ipaddress` raises an
uncaught `ValueError` subclass, ending the whole lint run. -/
def gwScan (ip : Nat) : List Subnet → Except PyErr (Bool × List Subnet)
  | [] => .ok (false, [])
  | net :: rest =>
    if memSubnet net ip then
      if net.base + 1 < 4294967296 then
        match gwScan ip rest with
        | .error e => .error e
        | .ok (_, gwFor) =>
          .ok (true, (if ip == net.base + 1 then [net] else []) ++ gwFor)
      else .error .valueError
    else
      match gwScan ip rest with
      | .error e => .error e
      | .ok (inAny, gwFor) => .ok (inAny, gwFor)

/-- The per-address body of `lint_compose_ips`: parse the captured token
with `ipaddress` (invalid tokens are reported, not raised, here), run the
subnet loop (which can raise on a gateway overflow), then report the
outside-subnet finding when no discovered subnet contains the address,
and the single gateway-collision finding when the address equals the
gateway of some subnet containing it. -/
def checkAddrFindings (svc : Option (List Char)) (tok : List Char)
    (subnets : List Subnet) : Except PyErr (List Finding) :=
  match parseIPString tok with
  | none => .ok [.invalidAddress svc tok]
  | some ip =>
    match gwScan ip subnets with
    | .error e => .error e
    | .ok (inAny, gwFor) =>
      .ok ((if !inAny then [Finding.outsideSubnets svc ip] else []) ++
        (if gwFor ≠ [] then [Finding.gatewayCollision svc ip gwFor] else []))

/-- One line of the `lint_compose_ips` loop: update
`(in_services, current_service)` and produce the line's findings, or
propagate the gateway-overflow exception. -/
def lintLine (subnets : List Subnet) (inServices : Bool) (svc : Option (List Char))
    (line : List Char) : Except PyErr (Bool × Option (List Char) × List Finding) :=
  if matchHeaderLine (stripPy line) (strC "services:") then .ok (true, none, [])
  else if (matchTopKey (stripPy line)).isSome && !(line.head? == some ' ') then
    (match matchTopKey (stripPy line) with
     | some key =>
       if key = strC "services" then .ok (inServices, svc, []) else .ok (false, none, [])
     | none => .ok (inServices, svc, []))
  else if inServices && (matchTwoSpaceKey line).isSome then
    .ok (inServices, matchTwoSpaceKey line, [])
  else
    match searchIPv4 (stripPy line).length (stripPy line) with
    | some tok =>
      match checkAddrFindings svc tok subnets with
      | .error e => .error e
      | .ok fs => .ok (inServices, svc, fs)
    | none => .ok (inServices, svc, [])

/-- The line fold of `lint_compose_ips`. -/
def lintGo (subnets : List Subnet) : Bool → Option (List Char) → List (List Char) →
    Except PyErr (List Finding)
  | _, _, [] => .ok []
  | inServices, svc, l :: ls =>
    match lintLine subnets inServices svc l with
    | .error e => .error e
    | .ok (s1, v1, fs) =>
      match lintGo subnets s1 v1 ls with
      | .error e => .error e
      | .ok rest => .ok (fs ++ rest)

/-- `lint_compose_ips(compose_text, subnets)` (`network_lint.py`): the
findings list, or the uncaught exception of a gateway-address overflow. -/
def lintComposeIPs (text : List Char) (subnets : List Subnet) : Except PyErr (List Finding) :=
  lintGo subnets false none (splitLines text)

/-- Classifier: a gateway-collision finding. -/
def Finding.isGatewayHit : Finding → Bool
  | .gatewayCollision _ _ _ => true
  | _ => false

/-- Classifier: an outside-any-subnet finding. -/
def Finding.isOutsideHit : Finding → Bool
  | .outsideSubnets _ _ => true
  | _ => false

/-! ### Topology fixer (`patch_service_networks`, `align_frr_to_mapping`) -/

/-- One of the three router services of the fixed topology. -/
inductive Rtr where
  | r1 : Rtr
  | r2 : Rtr
  | r3 : Rtr
deriving DecidableEq

/-- The deterministic address mapping computed by `patch_service_networks`:
`r1` on `net_ab`, `r2` on `net_ab` and `net_bc`, `r3` on `net_bc`. -/
structure RouterMap where
  r1ab : Nat
  r2ab : Nat
  r2bc : Nat
  r3bc : Nat
deriving DecidableEq

/-- `re.match(^  (r1|r2|r3):\s*$, line)` (two literal spaces). -/
def matchServiceHeader (l : List Char) : Option Rtr :=
  match matchLit l (strC "  r1:") with
  | some rest => if rest.all isPySpace then some Rtr.r1 else none
  | none =>
    match matchLit l (strC "  r2:") with
    | some rest => if rest.all isPySpace then some Rtr.r2 else none
    | none =>
      match matchLit l (strC "  r3:") with
      | some rest => if rest.all isPySpace then some Rtr.r3 else none
      | none => none

/-- `re.match(^  [a-zA-Z0-9_]+:\s*$, line)` (two literal spaces). -/
def matchSvcKey (l : List Char) : Bool :=
  match l with
  | ' ' :: ' ' :: rest =>
    if (rest.takeWhile isWordChar).isEmpty then false
    else
      match rest.dropWhile isWordChar with
      | ':' :: tail => tail.all isPySpace
      | _ => false
  | _ => false

/-- `re.match(^\s{4}[a-zA-Z0-9_]+:\s*$, line)`. -/
def matchFourSpaceKey (l : List Char) : Bool :=
  match l with
  | w1 :: w2 :: w3 :: w4 :: rest =>
    if isPySpace w1 && isPySpace w2 && isPySpace w3 && isPySpace w4 then
      if (rest.takeWhile isWordChar).isEmpty then false
      else
        match rest.dropWhile isWordChar with
        | ':' :: tail => tail.all isPySpace
        | _ => false
    else false
  | _ => false

/-- `re.match(^\s{4}networks:\s*$, line)`. -/
def matchNetworks4 (l : List Char) : Bool :=
  match l with
  | w1 :: w2 :: w3 :: w4 :: rest =>
    if isPySpace w1 && isPySpace w2 && isPySpace w3 && isPySpace w4 then
      matchHeaderLine rest (strC "networks:")
    else false
  | _ => false

/-- `re.match(^[^ ], line)`. -/
def breakNonSpace (l : List Char) : Bool :=
  match l with
  | [] => false
  | c :: _ => !(c = ' ')

/-- `re.match(^\s{6}-\s+net_(ab|bc)\s*$, line)`. -/
def matchNetItem (l : List Char) : Bool :=
  match l with
  | w1 :: w2 :: w3 :: w4 :: w5 :: w6 :: rest =>
    if isPySpace w1 && isPySpace w2 && isPySpace w3 &&
        isPySpace w4 && isPySpace w5 && isPySpace w6 then
      match rest with
      | '-' :: r1 =>
        if (r1.takeWhile isPySpace).isEmpty then false
        else
          match matchLit (r1.dropWhile isPySpace) (strC "net_ab") with
          | some tail => tail.all isPySpace
          | none =>
            match matchLit (r1.dropWhile isPySpace) (strC "net_bc") with
            | some tail => tail.all isPySpace
            | none => false
      | _ => false
    else false
  | _ => false

/-- The inner skip loop of the `networks:` block replacement in
`patch_service_networks`: list-style `- net_ab` / `- net_bc` items are
dropped, other block lines are kept, and the loop stops at a four-space
key line, a two-space key line, or a line not starting with a space.
Returns the kept lines and the remaining lines. -/
def skipNetBlock : Nat → List (List Char) → List (List Char) × List (List Char)
  | _, [] => ([], [])
  | 0, ls => ([], ls)
  | fuel + 1, l :: ls =>
    if matchFourSpaceKey l || matchSvcKey l || breakNonSpace l then ([], l :: ls)
    else if matchNetItem l then skipNetBlock fuel ls
    else ((l :: (skipNetBlock fuel ls).1), (skipNetBlock fuel ls).2)

/-- The deterministic `networks:` block lines inserted per service by
`patch_service_networks`. -/
def insertMapLines (m : RouterMap) : Rtr → List (List Char)
  | Rtr.r1 => [strC "      net_ab:",
               strC "        ipv4_address: " ++ ipChars m.r1ab]
  | Rtr.r2 => [strC "      net_ab:",
               strC "        ipv4_address: " ++ ipChars m.r2ab,
               strC "      net_bc:",
               strC "        ipv4_address: " ++ ipChars m.r2bc]
  | Rtr.r3 => [strC "      net_bc:",
               strC "        ipv4_address: " ++ ipChars m.r3bc]

/-- The main line loop of `patch_service_networks`, threading the
`current_service` state. -/
def patchGo (m : RouterMap) : Nat → Option Rtr → List (List Char) → List (List Char)
  | _, _, [] => []
  | 0, _, ls => ls
  | fuel + 1, cur, l :: ls =>
    match matchServiceHeader l with
    | some r => l :: patchGo m fuel (some r) ls
    | none =>
      if cur.isSome && matchSvcKey l then l :: patchGo m fuel none ls
      else
        match cur with
        | some r =>
          if matchNetworks4 l then
            l :: ((skipNetBlock ls.length ls).1 ++ insertMapLines m r ++
              patchGo m fuel (some r) (skipNetBlock ls.length ls).2)
          else l :: patchGo m fuel cur ls
        | none => l :: patchGo m fuel cur ls

/-- `patch_service_networks(compose_text, subnets)` (`network_lint.py`):
the deterministic mapping is computed from the first two subnets before
the line loop (an overflowing `IPv4Address + k` raises a `ValueError`
subclass), each router's `networks:` block is rewritten, and the new
text is returned with the mapping; fewer than two subnets raise
`RuntimeError` before anything else. -/
def patchServiceNetworks (text : List Char) (subnets : List Subnet) :
    Except PyErr (List Char × RouterMap) :=
  match subnets with
  | netAb :: netBc :: _ =>
    if netAb.base + 11 < 4294967296 ∧ netBc.base + 11 < 4294967296 then
      .ok (joinNL (patchGo
            (RouterMap.mk (netAb.base + 10) (netAb.base + 11)
              (netBc.base + 10) (netBc.base + 11))
            (splitLines text).length none (splitLines text)) ++ ['\n'],
        RouterMap.mk (netAb.base + 10) (netAb.base + 11)
          (netBc.base + 10) (netBc.base + 11))
    else .error .valueError
  | _ => .error .runtimeError

/-- `re.findall(neighbor\s+([\d\.]+)\s+remote-as\s+<asn>, text)`: the
captured neighbor tokens, leftmost to rightmost, resuming after each
match and one character later after a failed start. -/
def findNeighborsGo (asn : List Char) : Nat → List Char → List (List Char)
  | _, [] => []
  | 0, _ => []
  | fuel + 1, c :: cs =>
    match matchLit (c :: cs) (strC "neighbor") with
    | some r1 =>
      if (r1.takeWhile isPySpace).isEmpty then findNeighborsGo asn fuel cs
      else
        if ((r1.dropWhile isPySpace).takeWhile isDigitDot).isEmpty then
          findNeighborsGo asn fuel cs
        else
          if (((r1.dropWhile isPySpace).dropWhile isDigitDot).takeWhile
              isPySpace).isEmpty then
            findNeighborsGo asn fuel cs
          else
            match matchLit
                (((r1.dropWhile isPySpace).dropWhile isDigitDot).dropWhile isPySpace)
                (strC "remote-as") with
            | some r4 =>
              if (r4.takeWhile isPySpace).isEmpty then findNeighborsGo asn fuel cs
              else
                match matchLit (r4.dropWhile isPySpace) asn with
                | some r5 =>
                  (r1.dropWhile isPySpace).takeWhile isDigitDot ::
                    findNeighborsGo asn fuel r5
                | none => findNeighborsGo asn fuel cs
            | none => findNeighborsGo asn fuel cs
    | none => findNeighborsGo asn fuel cs

/-- The word boundary `\b` at the start of a candidate match: the
word-ness of the previous character (`none` at the start of the text)
must differ from that of the first matched character. -/
def boundaryBefore : Option Bool → Char → Bool
  | none, c => isWordChar c
  | some w, c => w != isWordChar c

/-- The word boundary `\b` after the matched literal, given the
word-ness of its last character. -/
def boundaryAfter (lastWord : Bool) : List Char → Bool
  | [] => lastWord
  | c :: _ => lastWord != isWordChar c

/-- `re.sub(\b<old>\b, new, text)` for a literal `old`: leftmost
non-overlapping occurrences guarded by word boundaries, scanning
resuming after each replacement. -/
def wordSubGo (oldT newT : List Char) : Nat → Option Bool → List Char → List Char
  | _, _, [] => []
  | 0, _, cs => cs
  | fuel + 1, st, c :: cs =>
    if boundaryBefore st c then
      match matchLit (c :: cs) oldT with
      | some rest =>
        if boundaryAfter (isWordChar (oldT.getLastD ' ')) rest then
          newT ++ wordSubGo oldT newT fuel (some (isWordChar (oldT.getLastD ' '))) rest
        else c :: wordSubGo oldT newT fuel (some (isWordChar c)) cs
      | none => c :: wordSubGo oldT newT fuel (some (isWordChar c)) cs
    else c :: wordSubGo oldT newT fuel (some (isWordChar c)) cs

/-- `re.sub(\b + re.escape(old) + \b, new, text)`. -/
def wordSub (oldT newT text : List Char) : List Char :=
  wordSubGo oldT newT text.length none text

/-- One `for old in set(old_ips): txt = re.sub(...)` pass of
`align_frr_to_mapping`: every distinct captured neighbor token for `asn`
is rewritten to `newIP` under word boundaries.  (Python iterates the
`set` in an unspecified order; modelled in first-occurrence order.) -/
def alignOneAS (asn newIP text : List Char) : List Char :=
  ((findNeighborsGo asn text.length text).eraseDups).foldl
    (fun t old => wordSub old newIP t) text

/-- `align_frr_to_mapping` on `frr/r1/frr.conf`: neighbors with
`remote-as 65002` become `mapping[r2][net_ab]`. -/
def alignFrrR1 (m : RouterMap) (text : List Char) : List Char :=
  alignOneAS (strC "65002") (ipChars m.r2ab) text

/-- `align_frr_to_mapping` on `frr/r2/frr.conf`: AS 65001 neighbors
become `mapping[r1][net_ab]`, then AS 65003 neighbors become
`mapping[r3][net_bc]` (the second `findall` runs on the updated text). -/
def alignFrrR2 (m : RouterMap) (text : List Char) : List Char :=
  alignOneAS (strC "65003") (ipChars m.r3bc)
    (alignOneAS (strC "65001") (ipChars m.r1ab) text)

/-- `align_frr_to_mapping` on `frr/r3/frr.conf`: AS 65002 neighbors
become `mapping[r2][net_bc]`. -/
def alignFrrR3 (m : RouterMap) (text : List Char) : List Char :=
  alignOneAS (strC "65002") (ipChars m.r2bc) text

/-! ### The set-networks rewrite (`rewrite_networks`) -/

/-- `re.findall(subnet:\s*([\d\.]+/\d+), text)`: the captured CIDR
tokens of `discover_subnets`. -/
def subnetTokensGo : Nat → List Char → List (List Char)
  | _, [] => []
  | 0, _ => []
  | fuel + 1, c :: cs =>
    match matchLit (c :: cs) (strC "subnet:") with
    | some r1 =>
      if ((r1.dropWhile isPySpace).takeWhile isDigitDot).isEmpty then
        subnetTokensGo fuel cs
      else
        match (r1.dropWhile isPySpace).dropWhile isDigitDot with
        | '/' :: r2 =>
          if (r2.takeWhile Char.isDigit).isEmpty then subnetTokensGo fuel cs
          else
            ((r1.dropWhile isPySpace).takeWhile isDigitDot ++
                '/' :: r2.takeWhile Char.isDigit) ::
              subnetTokensGo fuel (r2.dropWhile Char.isDigit)
        | _ => subnetTokensGo fuel cs
    | none => subnetTokensGo fuel cs

/-- `ipaddress.ip_network(tok)` on an `addr/len` token in the default
strict mode: the address part must parse as an IPv4 address, the length
must be a run of digits valued at most 32, and all host bits must be
zero. -/
def parseCIDR (tok : List Char) : Option Subnet :=
  match parseIPString (tok.takeWhile (fun c => !(c = '/'))) with
  | some b =>
    match tok.dropWhile (fun c => !(c = '/')) with
    | '/' :: ds =>
      if ds ≠ [] ∧ ds.all Char.isDigit ∧ parseDigits ds ≤ 32 then
        if b % 2 ^ (32 - parseDigits ds) = 0 then some (Subnet.mk b (parseDigits ds))
        else none
      else none
    | _ => none
  | none => none

/-- `discover_subnets(compose_text)` (`network_lint.py`): all captured
`subnet:` CIDR tokens parsed as strict networks; no token at all raises
`RuntimeError`, an unparsable token raises `ValueError`. -/
def discoverSubnets (text : List Char) : Except PyErr (List Subnet) :=
  match subnetTokensGo text.length text with
  | [] => .error .runtimeError
  | t :: ts =>
    match (t :: ts).mapM parseCIDR with
    | some nets => .ok nets
    | none => .error .valueError

/-- A destructive file write performed by `rewrite_networks`: the
compose file, or router number `idx`'s `frr.conf`. -/
inductive WriteEvent where
  | composeWrite (content : List Char) : WriteEvent
  | frrWrite (idx : Nat) (content : List Char) : WriteEvent
deriving DecidableEq

/-- `str(IPv4Network)`: the CIDR rendering of a subnet. -/
def cidrChars (s : Subnet) : List Char := ipChars s.base ++ '/' :: decChars s.plen

/-- The literal block of `inject_lab_networks_block`. -/
def labNetworksBlock (ab bc : Subnet) : List (List Char) :=
  [strC "networks:",
   strC "  net_ab:", strC "    driver: bridge", strC "    ipam:",
   strC "      config:", strC "        - subnet: " ++ cidrChars ab,
   strC "  net_bc:", strC "    driver: bridge", strC "    ipam:",
   strC "      config:", strC "        - subnet: " ++ cidrChars bc]

/-- The insertion loop of `inject_lab_networks_block`: after the first
`networks:` header line the block body is inserted. -/
def injectGo (body : List (List Char)) : Bool → List (List Char) → List (List Char)
  | _, [] => []
  | ins, l :: ls =>
    if !ins && matchNetworksHeader l then l :: (body ++ injectGo body true ls)
    else l :: injectGo body ins ls

/-- `inject_lab_networks_block(compose_text, net_ab, net_bc)`
(`network_lint.py`): insert the block body after an existing
`networks:` header, or append the whole block (after a blank separator
when the last line is non-blank) when no header exists. -/
def injectLabNetworksBlock (text : List Char) (ab bc : Subnet) : List Char :=
  joinNL
    (if (splitLines text).any matchNetworksHeader then
      injectGo (labNetworksBlock ab bc).tail false (splitLines text)
    else
      (if splitLines text ≠ [] ∧ stripPy ((splitLines text).getLastD []) ≠ [] then
        splitLines text ++ [[]]
      else splitLines text) ++ labNetworksBlock ab bc) ++ ['\n']

/-- The FRR loop at the end of `rewrite_networks`: for each existing
config (a `none` entry is a missing file), two `replace_ips` passes; a
write event is recorded only when something changed; an exception aborts
the whole run, discarding the remaining iterations. -/
def frrLoop (oldAb newAb oldBc newBc : Subnet) :
    Nat → List (Option (List Char)) → Except PyErr Unit × List WriteEvent
  | _, [] => (.ok (), [])
  | idx, none :: fs => frrLoop oldAb newAb oldBc newBc (idx + 1) fs
  | idx, some text :: fs =>
    match replaceIPs text oldAb newAb with
    | .error e => (.error e, [])
    | .ok (t1, c1) =>
      match replaceIPs t1 oldBc newBc with
      | .error e => (.error e, [])
      | .ok (t2, c2) =>
        ((frrLoop oldAb newAb oldBc newBc (idx + 1) fs).1,
          (if c1 || c2 then [WriteEvent.frrWrite idx t2] else []) ++
            (frrLoop oldAb newAb oldBc newBc (idx + 1) fs).2)

/-- `rewrite_networks(repo, new_ab, new_bc, fix_gateways)`
(`network_lint.py`) as a function of the compose text and the three
optional FRR texts: the final outcome together with the ordered list of
file writes performed before that outcome. -/
def rewriteNetworksRun (composeText : List Char) (frr : List (Option (List Char)))
    (newAb newBc : Subnet) (fixGw : Bool) : Except PyErr Unit × List WriteEvent :=
  match discoverSubnets composeText with
  | .error .runtimeError =>
    (.ok (), [WriteEvent.composeWrite
      (dedupeNetworksSection (injectLabNetworksBlock composeText newAb newBc))])
  | .error e => (.error e, [])
  | .ok nets =>
    match nets with
    | oldAb :: oldBc :: _ =>
      match replaceIPs composeText oldAb newAb with
      | .error e => (.error e, [])
      | .ok (t1, ch1) =>
        match replaceIPs t1 oldBc newBc with
        | .error e => (.error e, [])
        | .ok (t2, ch2) =>
          match (if fixGw then fixGatewayIPs t2 [newAb, newBc] else .ok (t2, [])) with
          | .error e => (.error e, [])
          | .ok (t3, msgs) =>
            ((frrLoop oldAb newAb oldBc newBc 1 frr).1,
              (if ch1 || ch2 || !msgs.isEmpty then
                [WriteEvent.composeWrite (dedupeNetworksSection t3)] else []) ++
                (frrLoop oldAb newAb oldBc newBc 1 frr).2)
    | _ => (.error .runtimeError, [])

/-- The concrete three-router compose document of the end-to-end repair
scenario (list-style service networks, link subnets 172.20.0.0/24 and
172.20.1.0/24). -/
def c5ComposeDoc : List Char :=
  strC "services:\n  r1:\n    image: frr\n    networks:\n      - net_ab\n  r2:\n    image: frr\n    networks:\n      - net_ab\n      - net_bc\n  r3:\n    image: frr\n    networks:\n      - net_bc\nnetworks:\n  net_ab:\n    ipam:\n      config:\n        - subnet: 172.20.0.0/24\n  net_bc:\n    ipam:\n      config:\n        - subnet: 172.20.1.0/24\n"

/-- The compose document after `patch_service_networks` on the scenario
document. -/
def c5ComposeExpected : List Char :=
  strC "services:\n  r1:\n    image: frr\n    networks:\n      net_ab:\n        ipv4_address: 172.20.0.10\n  r2:\n    image: frr\n    networks:\n      net_ab:\n        ipv4_address: 172.20.0.11\n      net_bc:\n        ipv4_address: 172.20.1.10\n  r3:\n    image: frr\n    networks:\n      net_bc:\n        ipv4_address: 172.20.1.11\nnetworks:\n  net_ab:\n    ipam:\n      config:\n        - subnet: 172.20.0.0/24\n  net_bc:\n    ipam:\n      config:\n        - subnet: 172.20.1.0/24\n"

/-- The scenario `frr/r1/frr.conf` before alignment. -/
def c5R1Conf : List Char :=
  strC "router bgp 65001\n neighbor 10.0.0.11 remote-as 65002\n"

/-- The scenario `frr/r2/frr.conf` before alignment. -/
def c5R2Conf : List Char :=
  strC "router bgp 65002\n neighbor 10.0.0.10 remote-as 65001\n neighbor 10.0.1.11 remote-as 65003\n"

/-- The scenario `frr/r3/frr.conf` before alignment. -/
def c5R3Conf : List Char :=
  strC "router bgp 65003\n neighbor 10.0.1.10 remote-as 65002\n"

/-! ## Basic lemmas about octet rendering and parsing -/

theorem decChars_all_digits : ∀ b < 256, (decChars b).all Char.isDigit = true := by decide

theorem decChars_ne_nil : ∀ b < 256, decChars b ≠ [] := by decide

theorem decChars_len : ∀ b < 256, 1 ≤ (decChars b).length ∧ (decChars b).length ≤ 3 := by decide

theorem parseOctet_decChars : ∀ b < 256, parseOctet (decChars b) = some b := by decide

theorem digit_isWordChar {c : Char} (h : c.isDigit = true) : isWordChar c = true := by
  simp [isWordChar, Char.isAlphanum, h]

theorem not_word_not_digit {c : Char} (h : isWordChar c = false) : c.isDigit = false := by
  cases hd : c.isDigit with
  | false => rfl
  | true => rw [digit_isWordChar hd] at h; cases h

theorem mem_all_digits {l : List Char} (h : l.all Char.isDigit = true) :
    ∀ c ∈ l, c.isDigit = true := by
  intro c hc; exact List.all_eq_true.mp h c hc

theorem dot_not_mem_digits {l : List Char} (h : l.all Char.isDigit = true) : '.' ∉ l := by
  intro hm
  have := mem_all_digits h '.' hm
  cases this

theorem takeWhile_all_append (p : Char → Bool) :
    ∀ (ds r : List Char), (∀ c ∈ ds, p c = true) →
    (∀ c cs, r = c :: cs → p c = false) →
    (ds ++ r).takeWhile p = ds ∧ (ds ++ r).dropWhile p = r := by
  intro ds r h1 h2
  induction ds with
  | nil =>
    cases r with
    | nil => simp
    | cons c cs => simp [List.takeWhile_cons, List.dropWhile_cons, h2 c cs rfl]
  | cons d ds ih =>
    have hd : p d = true := h1 d (by simp)
    have hrec := ih (fun c hc => h1 c (by simp [hc]))
    simp [List.takeWhile_cons, List.dropWhile_cons, hd, hrec.1, hrec.2]

/-! ## The quad matcher on a rendered address -/

theorem matchOctetDot_decChars (b : Nat) (hb : b < 256) (r : List Char) :
    matchOctetDot (decChars b ++ '.' :: r) = some (decChars b, r) := by
  have hall := decChars_all_digits b hb
  have hlen := decChars_len b hb
  have hsplit := takeWhile_all_append Char.isDigit (decChars b) ('.' :: r)
    (mem_all_digits hall)
    (by intro c cs h; injection h with h1 _; subst h1; rfl)
  unfold matchOctetDot
  rw [hsplit.1, hsplit.2]
  simp [hlen.1, hlen.2]

theorem boundary_head_not_digit {r : List Char} (hr : boundaryOK r = true) :
    ∀ c cs, r = c :: cs → c.isDigit = false := by
  intro c cs h
  subst h
  simp only [boundaryOK, Bool.not_eq_true'] at hr
  exact not_word_not_digit hr

theorem matchLastOctet_decChars (b : Nat) (hb : b < 256) (r : List Char)
    (hr : boundaryOK r = true) :
    matchLastOctet (decChars b ++ r) = some (decChars b, r) := by
  have hall := decChars_all_digits b hb
  have hlen := decChars_len b hb
  have hsplit := takeWhile_all_append Char.isDigit (decChars b) r
    (mem_all_digits hall) (boundary_head_not_digit hr)
  unfold matchLastOctet
  rw [hsplit.1, hsplit.2]
  simp [hlen.1, hlen.2, hr]

theorem matchQuad_ipChars (n : Nat) (hn : n < 4294967296) (r : List Char)
    (hr : boundaryOK r = true) :
    matchQuad (ipChars n ++ r) =
      some (decChars (n / 16777216), decChars (n / 65536 % 256),
            decChars (n / 256 % 256), decChars (n % 256), r) := by
  have hb1 : n / 16777216 < 256 := by omega
  have hb2 : n / 65536 % 256 < 256 := Nat.mod_lt _ (by norm_num)
  have hb3 : n / 256 % 256 < 256 := Nat.mod_lt _ (by norm_num)
  have hb4 : n % 256 < 256 := Nat.mod_lt _ (by norm_num)
  have hshape : ipChars n ++ r =
      decChars (n / 16777216) ++ '.' :: (decChars (n / 65536 % 256) ++ '.' ::
        (decChars (n / 256 % 256) ++ '.' :: (decChars (n % 256) ++ r))) := by
    simp [ipChars, List.append_assoc]
  have e1 := matchOctetDot_decChars _ hb1 (decChars (n / 65536 % 256) ++ '.' ::
    (decChars (n / 256 % 256) ++ '.' :: (decChars (n % 256) ++ r)))
  have e2 := matchOctetDot_decChars _ hb2 (decChars (n / 256 % 256) ++ '.' ::
    (decChars (n % 256) ++ r))
  have e3 := matchOctetDot_decChars _ hb3 (decChars (n % 256) ++ r)
  have e4 := matchLastOctet_decChars _ hb4 r hr
  rw [hshape]
  simp only [matchQuad, e1, e2, e3, e4]

/-! ## Parsing a rendered address -/

theorem splitDots_ne_nil : ∀ a : List Char, splitDots a ≠ [] := by
  intro a
  induction a with
  | nil => simp [splitDots]
  | cons c cs ih =>
    by_cases hc : c = '.'
    · simp [splitDots, hc]
    · simp only [splitDots, if_neg hc]
      cases h : splitDots cs with
      | nil => exact absurd h ih
      | cons p ps => simp

theorem splitDots_no_dot : ∀ a : List Char, '.' ∉ a → splitDots a = [a] := by
  intro a h
  induction a with
  | nil => rfl
  | cons c cs ih =>
    have hc : ¬ c = '.' := by
      intro e; exact h (by simp [e])
    have hrec := ih (fun hm => h (List.mem_cons_of_mem _ hm))
    simp only [splitDots, if_neg hc, hrec]

theorem splitDots_append : ∀ (a r : List Char), '.' ∉ a →
    splitDots (a ++ '.' :: r) = a :: splitDots r := by
  intro a r h
  induction a with
  | nil => simp [splitDots]
  | cons c cs ih =>
    have hc : ¬ c = '.' := by
      intro e; exact h (by simp [e])
    have hrec := ih (fun hm => h (List.mem_cons_of_mem _ hm))
    rw [List.cons_append]
    simp only [splitDots, if_neg hc]
    rw [hrec]

theorem splitDots_quadTok (o1 o2 o3 o4 : List Char)
    (h1 : '.' ∉ o1) (h2 : '.' ∉ o2) (h3 : '.' ∉ o3) (h4 : '.' ∉ o4) :
    splitDots (quadTok o1 o2 o3 o4) = [o1, o2, o3, o4] := by
  unfold quadTok
  simp only [List.cons_append, List.append_assoc]
  rw [splitDots_append _ _ h1, splitDots_append _ _ h2, splitDots_append _ _ h3,
    splitDots_no_dot _ h4]

theorem parseIPString_ipChars (n : Nat) (hn : n < 4294967296) :
    parseIPString (quadTok (decChars (n / 16777216)) (decChars (n / 65536 % 256))
      (decChars (n / 256 % 256)) (decChars (n % 256))) = some n := by
  have hb1 : n / 16777216 < 256 := by omega
  have hb2 : n / 65536 % 256 < 256 := Nat.mod_lt _ (by norm_num)
  have hb3 : n / 256 % 256 < 256 := Nat.mod_lt _ (by norm_num)
  have hb4 : n % 256 < 256 := Nat.mod_lt _ (by norm_num)
  unfold parseIPString
  rw [splitDots_quadTok _ _ _ _
    (dot_not_mem_digits (decChars_all_digits _ hb1))
    (dot_not_mem_digits (decChars_all_digits _ hb2))
    (dot_not_mem_digits (decChars_all_digits _ hb3))
    (dot_not_mem_digits (decChars_all_digits _ hb4))]
  simp only [parseOctet_decChars _ hb1, parseOctet_decChars _ hb2,
    parseOctet_decChars _ hb3, parseOctet_decChars _ hb4, quadVal]
  congr 1
  omega

theorem ipChars_eq_quadTok (n : Nat) :
    ipChars n = quadTok (decChars (n / 16777216)) (decChars (n / 65536 % 256))
      (decChars (n / 256 % 256)) (decChars (n % 256)) := rfl

theorem ipChars_head_digit (n : Nat) (hn : n < 4294967296) :
    ∃ c cs, ipChars n = c :: cs ∧ c.isDigit = true := by
  have hb1 : n / 16777216 < 256 := by omega
  cases hD : decChars (n / 16777216) with
  | nil => exact absurd hD (decChars_ne_nil _ hb1)
  | cons c cs =>
    refine ⟨c, cs ++ '.' :: decChars (n / 65536 % 256) ++
      '.' :: decChars (n / 256 % 256) ++ '.' :: decChars (n % 256), ?_, ?_⟩
    · simp [ipChars, hD]
    · have := mem_all_digits (decChars_all_digits _ hb1)
      rw [hD] at this
      exact this c (by simp)

/-! ## The scanner applied to a single rendered address -/

theorem replaceIPsGo_match (old new : Subnet) (fuel : Nat) (c : Char) (cs : List Char)
    (hc : c.isDigit = true)
    (o1 o2 o3 o4 rest : List Char)
    (hm : matchQuad (c :: cs) = some (o1, o2, o3, o4, rest)) :
    replaceIPsGo old new (fuel + 1) false (c :: cs) =
      match replTok old new o1 o2 o3 o4 with
      | .error e => .error e
      | .ok (tok, ch) =>
        match replaceIPsGo old new fuel true rest with
        | .error e => .error e
        | .ok (out, ch2) => .ok (tok ++ out, ch || ch2) := by
  simp [replaceIPsGo, hc, hm]

theorem replaceIPs_ipChars (old new : Subnet) (n : Nat) (hn : n < 4294967296) :
    replaceIPs (ipChars n) old new =
      (if memSubnet old n then
        (if new.base + (n - old.base) < 4294967296 then
          Except.ok (ipChars (new.base + (n - old.base)), true)
         else Except.error PyErr.valueError)
       else Except.ok (ipChars n, false)) := by
  obtain ⟨c, cs, hip, hc⟩ := ipChars_head_digit n hn
  have hm : matchQuad (c :: cs) = some (decChars (n / 16777216), decChars (n / 65536 % 256),
      decChars (n / 256 % 256), decChars (n % 256), []) := by
    rw [← hip, ← List.append_nil (ipChars n)]
    exact matchQuad_ipChars n hn [] rfl
  have hrepl : replTok old new (decChars (n / 16777216)) (decChars (n / 65536 % 256))
      (decChars (n / 256 % 256)) (decChars (n % 256)) =
      (if memSubnet old n then
        (if new.base + (n - old.base) < 4294967296 then
          Except.ok (ipChars (new.base + (n - old.base)), true)
         else Except.error PyErr.valueError)
       else Except.ok (ipChars n, false)) := by
    unfold replTok
    rw [parseIPString_ipChars n hn]
    by_cases hmem : memSubnet old n
    · simp only [hmem, if_true]
    · simp only [hmem, if_false, ipChars_eq_quadTok]
  unfold replaceIPs
  rw [hip]
  simp only [List.length_cons]
  rw [replaceIPsGo_match old new cs.length c cs hc _ _ _ _ _ hm, hrepl]
  by_cases hmem : memSubnet old n
  · by_cases hov : new.base + (n - old.base) < 4294967296
    · simp [hmem, hov, replaceIPsGo]
    · simp [hmem, hov]
  · simp only [hmem, if_false, Bool.false_eq_true]
    simp [replaceIPsGo]
    exact hip

/-! ## Subnet arithmetic -/

theorem numAddresses_pos (s : Subnet) : 0 < numAddresses s :=
  Nat.pos_pow_of_pos _ (by norm_num)

theorem subnet_end_le (s : Subnet) (h : s.Valid) :
    s.base + numAddresses s ≤ 4294967296 := by
  obtain ⟨hp, hb, hm⟩ := h
  have hdvd : numAddresses s ∣ s.base := Nat.dvd_of_mod_eq_zero hm
  have hdvd2 : numAddresses s ∣ 4294967296 := by
    have h32 : (4294967296 : Nat) = 2 ^ 32 := by norm_num
    rw [h32]
    exact pow_dvd_pow 2 (by omega)
  obtain ⟨k, hk⟩ := hdvd
  obtain ⟨m, hmq⟩ := hdvd2
  have hkm : k < m := by
    by_contra hge
    push_neg at hge
    have : numAddresses s * m ≤ numAddresses s * k := Nat.mul_le_mul_left _ hge
    omega
  calc s.base + numAddresses s = numAddresses s * k + numAddresses s := by rw [hk]
    _ = numAddresses s * (k + 1) := by ring
    _ ≤ numAddresses s * m := Nat.mul_le_mul_left _ (by omega)
    _ = 4294967296 := hmq.symm

/-- C1: Offset-based translation round-trips: for subnets `S1`, `S2` of equal
prefix length and an address `a ∈ S1`, rewriting the text consisting of `a`
from `S1` to `S2` with `replace_ips` yields the translated address
`S2.base + (a - S1.base)` with `changed = true`, and rewriting that result
back from `S2` to `S1` yields `a` again. -/
theorem c1_translation_round_trip (S1 S2 : Subnet) (a : Nat)
    (h1 : S1.Valid) (h2 : S2.Valid) (hp : S1.plen = S2.plen)
    (ha : memSubnet S1 a = true) :
    replaceIPs (ipChars a) S1 S2 =
      Except.ok (ipChars (S2.base + (a - S1.base)), true) ∧
    replaceIPs (ipChars (S2.base + (a - S1.base))) S2 S1 =
      Except.ok (ipChars a, true) := by
  have hend1 := subnet_end_le S1 h1
  have hend2 := subnet_end_le S2 h2
  have hsz : numAddresses S1 = numAddresses S2 := by
    unfold numAddresses; rw [hp]
  simp only [memSubnet, Bool.and_eq_true, decide_eq_true_eq] at ha
  have han : a < 4294967296 := by omega
  have hbn : S2.base + (a - S1.base) < 4294967296 := by omega
  have hamem : memSubnet S1 a = true := by
    simp only [memSubnet, Bool.and_eq_true, decide_eq_true_eq]; omega
  have hbmem : memSubnet S2 (S2.base + (a - S1.base)) = true := by
    simp only [memSubnet, Bool.and_eq_true, decide_eq_true_eq]
    constructor
    · omega
    · omega
  constructor
  · rw [replaceIPs_ipChars S1 S2 a han, if_pos hamem, if_pos hbn]
  · rw [replaceIPs_ipChars S2 S1 _ hbn, if_pos hbmem]
    have hov : S1.base + (S2.base + (a - S1.base) - S2.base) < 4294967296 := by omega
    rw [if_pos hov]
    have hback : S1.base + (S2.base + (a - S1.base) - S2.base) = a := by omega
    rw [hback]

/-- Witness for C1: `172.20.0.0/24` to `10.200.5.0/24` moves `172.20.0.10`
to `10.200.5.10` and back. -/
theorem c1_translation_round_trip_witness :
    (Subnet.mk 2886991872 24).Valid ∧ (Subnet.mk 180880640 24).Valid ∧
    (Subnet.mk 2886991872 24).plen = (Subnet.mk 180880640 24).plen ∧
    memSubnet (Subnet.mk 2886991872 24) 2886991882 = true ∧
    (replaceIPs (ipChars 2886991882) (Subnet.mk 2886991872 24) (Subnet.mk 180880640 24) =
       Except.ok (ipChars (180880640 + (2886991882 - 2886991872)), true) ∧
     replaceIPs (ipChars (180880640 + (2886991882 - 2886991872)))
       (Subnet.mk 180880640 24) (Subnet.mk 2886991872 24) =
       Except.ok (ipChars 2886991882, true)) :=
  ⟨by decide, by decide, rfl, by decide,
    c1_translation_round_trip _ _ _ (by decide) (by decide) rfl (by decide)⟩

/-- C2 counterexample: `replace_ips` performs no prefix-length check.  With
old subnet `10.0.0.0/24` and new subnet `10.1.0.0/25` (different prefix
lengths) and the text `10.0.0.5` (an address of the old subnet), the
rewrite succeeds and translates, instead of failing with an
incompatible-subnet-size error as the claim states. -/
theorem c2_counterexample :
    ¬ (Subnet.mk 167772160 24).plen = (Subnet.mk 167837696 25).plen ∧
    replaceIPs (strC "10.0.0.5") (Subnet.mk 167772160 24) (Subnet.mk 167837696 25) =
      Except.ok (strC "10.1.0.5", true) := by decide

/-- C2 amended: `replace_ips` never compares the prefix lengths of the two
subnets: whenever a text token is an address of the old subnet, the token
is rewritten to `new.base + offset` (provided that value is a valid
address), regardless of whether the prefix lengths agree. -/
theorem c2_no_prefix_length_check (old new : Subnet) (a : Nat)
    (ha : a < 4294967296) (hmem : memSubnet old a = true)
    (hov : new.base + (a - old.base) < 4294967296) :
    replaceIPs (ipChars a) old new =
      Except.ok (ipChars (new.base + (a - old.base)), true) := by
  rw [replaceIPs_ipChars old new a ha, if_pos hmem, if_pos hov]

/-- Witness for the amended C2, at subnets with different prefix lengths. -/
theorem c2_no_prefix_length_check_witness :
    167772165 < 4294967296 ∧
    memSubnet (Subnet.mk 167772160 24) 167772165 = true ∧
    167837696 + (167772165 - 167772160) < 4294967296 ∧
    replaceIPs (ipChars 167772165) (Subnet.mk 167772160 24) (Subnet.mk 167837696 25) =
      Except.ok (ipChars (167837696 + (167772165 - 167772160)), true) :=
  ⟨by decide, by decide, by decide,
    c2_no_prefix_length_check _ _ _ (by decide) (by decide) (by decide)⟩

/-- C10: the rewrite is total only when every dotted-quad-shaped token is a
valid IPv4 address: on the text `999.1.2.3` (dotted-quad shape, octet above
255) `replace_ips` raises an unhandled `ValueError` from address parsing,
for every pair of subnets, instead of leaving the token untouched. -/
theorem c10_invalid_quad_raises (old new : Subnet) :
    replaceIPs (strC "999.1.2.3") old new = Except.error PyErr.valueError := rfl

/-! ## Decomposition of successful quad matches -/

theorem matchOctetDot_decomp {cs ds r : List Char}
    (h : matchOctetDot cs = some (ds, r)) :
    cs = ds ++ '.' :: r ∧ 1 ≤ ds.length := by
  rw [matchOctetDot] at h
  split at h
  · rename_i hcond
    split at h
    · rename_i r' heq
      injection h with h'
      injection h' with h1 h2
      subst h1; subst h2
      simp only [Bool.and_eq_true, decide_eq_true_eq] at hcond
      refine ⟨?_, hcond.1⟩
      conv_lhs => rw [← List.takeWhile_append_dropWhile (p := Char.isDigit) (l := cs)]
      rw [heq]
    · cases h
  · cases h

theorem matchLastOctet_decomp {cs ds r : List Char}
    (h : matchLastOctet cs = some (ds, r)) :
    cs = ds ++ r ∧ 1 ≤ ds.length := by
  rw [matchLastOctet] at h
  split at h
  · rename_i hcond
    split at h
    · injection h with h'
      injection h' with h1 h2
      subst h1; subst h2
      simp only [Bool.and_eq_true, decide_eq_true_eq] at hcond
      exact ⟨(List.takeWhile_append_dropWhile (p := Char.isDigit) (l := cs)).symm, hcond.1⟩
    · cases h
  · cases h

theorem matchQuad_decomp {cs o1 o2 o3 o4 r : List Char}
    (h : matchQuad cs = some (o1, o2, o3, o4, r)) :
    cs = quadTok o1 o2 o3 o4 ++ r ∧ r.length + 7 ≤ cs.length := by
  rw [matchQuad] at h
  cases h1 : matchOctetDot cs with
  | none => simp only [h1] at h; cases h
  | some p1 =>
    obtain ⟨d1, r1⟩ := p1
    simp only [h1] at h
    cases h2 : matchOctetDot r1 with
    | none => simp only [h2] at h; cases h
    | some p2 =>
      obtain ⟨d2, r2⟩ := p2
      simp only [h2] at h
      cases h3 : matchOctetDot r2 with
      | none => simp only [h3] at h; cases h
      | some p3 =>
        obtain ⟨d3, r3⟩ := p3
        simp only [h3] at h
        cases h4 : matchLastOctet r3 with
        | none => simp only [h4] at h; cases h
        | some p4 =>
          obtain ⟨d4, r4⟩ := p4
          simp only [h4, Option.some.injEq, Prod.mk.injEq] at h
          obtain ⟨e1, e2, e3, e4, e5⟩ := h
          subst e1; subst e2; subst e3; subst e4; subst e5
          obtain ⟨q1, l1⟩ := matchOctetDot_decomp h1
          obtain ⟨q2, l2⟩ := matchOctetDot_decomp h2
          obtain ⟨q3, l3⟩ := matchOctetDot_decomp h3
          obtain ⟨q4, l4⟩ := matchLastOctet_decomp h4
          subst q1; subst q2; subst q3; subst q4
          constructor
          · simp [quadTok, List.append_assoc]
          · simp only [List.length_append, List.length_cons]
            omega

/-! ## C4: identity on texts whose tokens are valid and all outside -/

theorem replaceIPs_unchanged_go (old new : Subnet) :
    ∀ (fuel : Nat) (cs : List Char) (pw : Bool), cs.length ≤ fuel →
    (∀ tok ∈ findIPsGo fuel pw cs, tokenValidOutside old tok = true) →
    replaceIPsGo old new fuel pw cs = .ok (cs, false) := by
  intro fuel
  induction fuel with
  | zero =>
    intro cs pw hlen _
    have : cs = [] := List.eq_nil_of_length_eq_zero (by omega)
    subst this
    rfl
  | succ fuel ih =>
    intro cs pw hlen htok
    cases cs with
    | nil => rfl
    | cons c cs' =>
      by_cases hcond : (!pw && c.isDigit) = true
      · cases hmq : matchQuad (c :: cs') with
        | some q =>
          obtain ⟨o1, o2, o3, o4, rest⟩ := q
          obtain ⟨hdec, hlen7⟩ := matchQuad_decomp hmq
          have htokhead : tokenValidOutside old (quadTok o1 o2 o3 o4) = true := by
            apply htok
            simp [findIPsGo, hcond, hmq]
          have htokrest : ∀ tok ∈ findIPsGo fuel true rest,
              tokenValidOutside old tok = true := by
            intro tok htk
            apply htok
            simp [findIPsGo, hcond, hmq]
            exact Or.inr htk
          obtain ⟨k, hk⟩ : ∃ k, parseIPString (quadTok o1 o2 o3 o4) = some k ∧
              memSubnet old k = false := by
            unfold tokenValidOutside at htokhead
            cases hp : parseIPString (quadTok o1 o2 o3 o4) with
            | none => rw [hp] at htokhead; cases htokhead
            | some k =>
              rw [hp] at htokhead
              exact ⟨k, rfl, by simpa using htokhead⟩
          have hrepl : replTok old new o1 o2 o3 o4 = .ok (quadTok o1 o2 o3 o4, false) := by
            simp only [replTok, hk.1, hk.2]
            simp
          have hrest : replaceIPsGo old new fuel true rest = .ok (rest, false) := by
            apply ih rest true
            · simp only [List.length_cons] at hlen hlen7
              omega
            · exact htokrest
          simp only [replaceIPsGo, hcond, if_true, hmq, hrepl, hrest]
          rw [hdec]
          simp
        | none =>
          have hrest : replaceIPsGo old new fuel (isWordChar c) cs' = .ok (cs', false) := by
            apply ih cs' (isWordChar c)
            · simp only [List.length_cons] at hlen; omega
            · intro tok htk
              apply htok
              simp [findIPsGo, hcond, hmq]
              exact htk
          simp only [replaceIPsGo, hcond, if_true, hmq, hrest]
      · have hcond' : (!pw && c.isDigit) = false := Bool.eq_false_iff.mpr hcond
        have hrest : replaceIPsGo old new fuel (isWordChar c) cs' = .ok (cs', false) := by
          apply ih cs' (isWordChar c)
          · simp only [List.length_cons] at hlen; omega
          · intro tok htk
            apply htok
            simp [findIPsGo, hcond']
            exact htk
        simp only [replaceIPsGo, hcond', Bool.false_eq_true, if_false, hrest]

/-- C4 amended: `replace_ips` is the identity (and reports `changed = false`)
on every text all of whose dotted-quad tokens are valid IPv4 addresses lying
outside the old subnet.  (The unamended claim, quantifying over texts with
unparseable dotted-quad tokens as well, fails: see the counterexample.) -/
theorem c4_identity_on_nonmatching (old new : Subnet) (text : List Char)
    (h : ∀ tok ∈ findIPs text, tokenValidOutside old tok = true) :
    replaceIPs text old new = Except.ok (text, false) :=
  replaceIPs_unchanged_go old new text.length text false (Nat.le_refl _) h

/-- Witness for the amended C4: a document with an unrelated address and a
port number is returned byte-identical with `changed = false`. -/
theorem c4_identity_on_nonmatching_witness :
    (∀ tok ∈ findIPs (strC "host: 8.8.8.8 port: 8080"),
      tokenValidOutside (Subnet.mk 2886991872 24) tok = true) ∧
    replaceIPs (strC "host: 8.8.8.8 port: 8080") (Subnet.mk 2886991872 24)
      (Subnet.mk 180880640 24) =
      Except.ok (strC "host: 8.8.8.8 port: 8080", false) :=
  ⟨by decide, c4_identity_on_nonmatching _ _ _ (by decide)⟩

/-- C4 counterexample: the text `999.1.2.3` contains one dotted-quad token;
it does not lie inside the old subnet (it is not even a valid address), yet
`replace_ips` raises `ValueError` instead of returning the text unchanged
with `changed = false`. -/
theorem c4_counterexample :
    findIPs (strC "999.1.2.3") = [strC "999.1.2.3"] ∧
    parseIPString (strC "999.1.2.3") = none ∧
    ¬ replaceIPs (strC "999.1.2.3") (Subnet.mk 167772160 24) (Subnet.mk 167837696 24) =
        Except.ok (strC "999.1.2.3", false) := by decide

/-! ## C6: deduplication is idempotent -/

theorem dedupeSkip_suffix : ∀ (fuel : Nat) (ls : List (List Char)),
    dedupeSkip fuel ls <:+ ls := by
  intro fuel
  induction fuel with
  | zero =>
    intro ls
    cases ls with
    | nil => exact List.suffix_refl _
    | cons l ls => exact List.suffix_refl _
  | succ fuel ih =>
    intro ls
    cases ls with
    | nil => exact List.suffix_refl _
    | cons l ls =>
      by_cases hb : ((matchTwoSpaceKey l).isSome || breakNonIndent l) = true
      · rw [dedupeSkip, if_pos hb]
      · rw [dedupeSkip, if_neg hb]
        exact (ih ls).trans (List.suffix_cons l ls)

theorem dedupeSkip_length (fuel : Nat) (ls : List (List Char)) :
    (dedupeSkip fuel ls).length ≤ ls.length :=
  (dedupeSkip_suffix fuel ls).length_le

theorem dedupeSkip_subset (fuel : Nat) (ls : List (List Char)) :
    ∀ l ∈ dedupeSkip fuel ls, l ∈ ls :=
  fun _ hl => (dedupeSkip_suffix fuel ls).subset hl

theorem dedupeGo_subset : ∀ (fuel : Nat) (inNet : Bool) (seen ls : List (List Char)),
    ∀ l ∈ dedupeGo fuel inNet seen ls, l ∈ ls := by
  intro fuel
  induction fuel with
  | zero =>
    intro inNet seen ls l hl
    cases ls with
    | nil => cases hl
    | cons a as => exact hl
  | succ fuel ih =>
    intro inNet seen ls l hl
    cases ls with
    | nil => cases hl
    | cons a as =>
      by_cases hh : matchNetworksHeader a = true
      · rw [dedupeGo, if_pos hh] at hl
        cases hl with
        | head => exact List.mem_cons_self _ _
        | tail _ h => exact List.mem_cons_of_mem _ (ih _ _ _ _ h)
      · rw [dedupeGo, if_neg hh] at hl
        by_cases hn : inNet = true
        · rw [if_pos hn] at hl
          cases hk : matchTwoSpaceKey a with
          | some key =>
            simp only [hk] at hl
            by_cases hc : seen.contains key = true
            · rw [if_pos hc] at hl
              exact List.mem_cons_of_mem _ (dedupeSkip_subset _ _ _ (ih _ _ _ _ hl))
            · rw [if_neg hc] at hl
              cases hl with
              | head => exact List.mem_cons_self _ _
              | tail _ h => exact List.mem_cons_of_mem _ (ih _ _ _ _ h)
          | none =>
            simp only [hk] at hl
            cases hl with
            | head => exact List.mem_cons_self _ _
            | tail _ h => exact List.mem_cons_of_mem _ (ih _ _ _ _ h)
        · rw [if_neg hn] at hl
          cases hl with
          | head => exact List.mem_cons_self _ _
          | tail _ h => exact List.mem_cons_of_mem _ (ih _ _ _ _ h)

theorem dedupeGo_fuel : ∀ (f1 f2 : Nat) (inNet : Bool) (seen ls : List (List Char)),
    ls.length ≤ f1 → ls.length ≤ f2 →
    dedupeGo f1 inNet seen ls = dedupeGo f2 inNet seen ls := by
  intro f1
  induction f1 with
  | zero =>
    intro f2 inNet seen ls h1 h2
    have : ls = [] := List.eq_nil_of_length_eq_zero (by omega)
    subst this
    cases f2 <;> rfl
  | succ f1 ih =>
    intro f2 inNet seen ls h1 h2
    cases ls with
    | nil => cases f2 <;> rfl
    | cons a as =>
      cases f2 with
      | zero => exact absurd h2 (by simp)
      | succ f2 =>
        simp only [List.length_cons] at h1 h2
        rw [dedupeGo, dedupeGo]
        by_cases hh : matchNetworksHeader a = true
        · rw [if_pos hh, if_pos hh, ih f2 true seen as (by omega) (by omega)]
        · rw [if_neg hh, if_neg hh]
          by_cases hn : inNet = true
          · rw [if_pos hn, if_pos hn]
            cases hk : matchTwoSpaceKey a with
            | some key =>
              simp only [hk]
              by_cases hc : seen.contains key = true
              · rw [if_pos hc, if_pos hc]
                exact ih f2 inNet seen _
                  (le_trans (dedupeSkip_length _ _) (by omega))
                  (le_trans (dedupeSkip_length _ _) (by omega))
              · rw [if_neg hc, if_neg hc, ih f2 inNet (key :: seen) as (by omega) (by omega)]
            | none =>
              simp only [hk]
              rw [ih f2 inNet seen as (by omega) (by omega)]
          · rw [if_neg hn, if_neg hn, ih f2 inNet seen as (by omega) (by omega)]

theorem matchTwoSpaceKey_not_header {l k : List Char}
    (h : matchTwoSpaceKey l = some k) : matchNetworksHeader l = false := by
  cases l with
  | nil => cases h
  | cons w1 t1 =>
    cases t1 with
    | nil => cases h
    | cons w2 rest =>
      rw [matchTwoSpaceKey] at h
      by_cases hsp : (isPySpace w1 && isPySpace w2) = true
      · have hw1 : isPySpace w1 = true := ((Bool.and_eq_true _ _).mp hsp).1
        have hne : ¬ w1 = 'n' := by
          intro e
          rw [e] at hw1
          exact absurd hw1 (by decide)
        have hlit : matchLit (w1 :: w2 :: rest) (strC "networks:") = none := by
          have hn : strC "networks:" = 'n' :: strC "etworks:" := rfl
          rw [hn, matchLit, if_neg hne]
        rw [matchNetworksHeader, matchHeaderLine, hlit]
      · rw [if_neg hsp] at h
        cases h

theorem dedupeGo_idem : ∀ (n : Nat) (ls : List (List Char)) (inNet : Bool)
    (seen : List (List Char)), ls.length ≤ n →
    dedupeGo (dedupeGo ls.length inNet seen ls).length inNet seen
      (dedupeGo ls.length inNet seen ls) = dedupeGo ls.length inNet seen ls := by
  intro n
  induction n with
  | zero =>
    intro ls inNet seen h
    have : ls = [] := List.eq_nil_of_length_eq_zero (by omega)
    subst this
    rfl
  | succ n ih =>
    intro ls inNet seen h
    cases ls with
    | nil => rfl
    | cons a as =>
      simp only [List.length_cons] at h ⊢
      by_cases hh : matchNetworksHeader a = true
      · rw [dedupeGo, if_pos hh, List.length_cons, dedupeGo, if_pos hh,
          ih as true seen (by omega)]
      · by_cases hn : inNet = true
        · cases hk : matchTwoSpaceKey a with
          | some key =>
            by_cases hc : seen.contains key = true
            · rw [dedupeGo, if_neg hh, if_pos hn]
              simp only [hk]
              rw [if_pos hc]
              have hsk := dedupeSkip_length as.length as
              rw [dedupeGo_fuel as.length (dedupeSkip as.length as).length inNet seen _
                hsk (le_refl _)]
              exact ih _ inNet seen (le_trans hsk (by omega))
            · rw [dedupeGo, if_neg hh, if_pos hn]
              simp only [hk]
              rw [if_neg hc, List.length_cons, dedupeGo, if_neg hh, if_pos hn]
              simp only [hk]
              rw [if_neg hc, ih as inNet (key :: seen) (by omega)]
          | none =>
            rw [dedupeGo, if_neg hh, if_pos hn]
            simp only [hk]
            rw [List.length_cons, dedupeGo, if_neg hh, if_pos hn]
            simp only [hk]
            rw [ih as inNet seen (by omega)]
        · rw [dedupeGo, if_neg hh, if_neg hn, List.length_cons, dedupeGo,
            if_neg hh, if_neg hn, ih as inNet seen (by omega)]

theorem splitLinesGo_succ (fuel : Nat) (c : Char) (cs : List Char) :
    splitLinesGo (fuel + 1) (c :: cs) =
      match (c :: cs).dropWhile (fun x => !isLineBreak x) with
      | [] => [(c :: cs).takeWhile (fun x => !isLineBreak x)]
      | t :: r =>
        (c :: cs).takeWhile (fun x => !isLineBreak x) ::
          splitLinesGo fuel (if t = '\r' && r.headD ' ' = '\n' then r.tail else r) := rfl

theorem splitLinesGo_fuel : ∀ (f1 f2 : Nat) (cs : List Char),
    cs.length ≤ f1 → cs.length ≤ f2 → splitLinesGo f1 cs = splitLinesGo f2 cs := by
  intro f1
  induction f1 with
  | zero =>
    intro f2 cs h1 h2
    have : cs = [] := List.eq_nil_of_length_eq_zero (by omega)
    subst this
    cases f2 <;> rfl
  | succ f1 ih =>
    intro f2 cs h1 h2
    cases cs with
    | nil => cases f2 <;> rfl
    | cons c cs' =>
      cases f2 with
      | zero => exact absurd h2 (by simp)
      | succ f2 =>
        simp only [List.length_cons] at h1 h2
        rw [splitLinesGo_succ, splitLinesGo_succ]
        cases hdw : (c :: cs').dropWhile (fun x => !isLineBreak x) with
        | nil => simp only [hdw]
        | cons t r =>
          simp only [hdw]
          have hrl : r.length + 1 ≤ cs'.length + 1 := by
            have hsfx : (c :: cs').dropWhile (fun x => !isLineBreak x) <:+ c :: cs' :=
              List.dropWhile_suffix _
            have := hsfx.length_le
            rw [hdw] at this
            simpa using this
          have hrr : (if t = '\r' && r.headD ' ' = '\n' then r.tail else r).length ≤ r.length := by
            by_cases hp : (t = '\r' && r.headD ' ' = '\n') = true
            · rw [if_pos hp]
              cases r with
              | nil => simp
              | cons x xs => simp
            · rw [if_neg hp]
          rw [ih f2 _ (by omega) (by omega)]

theorem splitLinesGo_breakfree : ∀ (fuel : Nat) (cs : List Char), cs.length ≤ fuel →
    ∀ l ∈ splitLinesGo fuel cs, l.all (fun c => !isLineBreak c) = true := by
  intro fuel
  induction fuel with
  | zero =>
    intro cs hlen l hl
    have : cs = [] := List.eq_nil_of_length_eq_zero (by omega)
    subst this
    cases hl
  | succ fuel ih =>
    intro cs hlen l hl
    cases cs with
    | nil => cases hl
    | cons c cs' =>
      have htw : ((c :: cs').takeWhile (fun x => !isLineBreak x)).all
          (fun c => !isLineBreak c) = true := by
        rw [List.all_eq_true]
        intro x hx
        have := List.mem_takeWhile_imp (p := fun y => !isLineBreak y) hx
        simpa using this
      rw [splitLinesGo_succ] at hl
      simp only [List.length_cons] at hlen
      cases hdw : (c :: cs').dropWhile (fun x => !isLineBreak x) with
      | nil =>
        simp only [hdw] at hl
        cases hl with
        | head => exact htw
        | tail _ h => cases h
      | cons t r =>
        simp only [hdw] at hl
        cases hl with
        | head => exact htw
        | tail _ h =>
          have hrl : r.length + 1 ≤ cs'.length + 1 := by
            have hsfx : (c :: cs').dropWhile (fun x => !isLineBreak x) <:+ c :: cs' :=
              List.dropWhile_suffix _
            have := hsfx.length_le
            rw [hdw] at this
            simpa using this
          have hrr : (if t = '\r' && r.headD ' ' = '\n' then r.tail else r).length ≤ r.length := by
            by_cases hp : (t = '\r' && r.headD ' ' = '\n') = true
            · rw [if_pos hp]
              cases r with
              | nil => simp
              | cons x xs => simp
            · rw [if_neg hp]
          exact ih _ (by omega) l h

theorem splitLines_append_newline (a r : List Char)
    (ha : a.all (fun c => !isLineBreak c) = true) :
    splitLines (a ++ '\n' :: r) = a :: splitLines r := by
  have hsplit := takeWhile_all_append (fun x => !isLineBreak x) a ('\n' :: r)
    (by
      intro c hc
      have := List.all_eq_true.mp ha c hc
      simpa using this)
    (by intro c cs h; injection h with h1 _; subst h1; rfl)
  cases hcs : a ++ '\n' :: r with
  | nil => exact absurd hcs (by simp)
  | cons c cs' =>
    unfold splitLines
    rw [hcs] at hsplit
    rw [List.length_cons, splitLinesGo_succ]
    simp only [hsplit.1, hsplit.2]
    have hrlen : r.length ≤ cs'.length := by
      have := congrArg List.length hcs
      simp only [List.length_append, List.length_cons] at this
      omega
    have hif : (decide ('\n' = '\x0d') && decide (r.headD ' ' = '\n')) = false := by simp
    rw [hif]
    simp only [Bool.false_eq_true, if_false]
    rw [splitLinesGo_fuel cs'.length r.length r hrlen (le_refl _)]

theorem splitLines_joinNL : ∀ (ls : List (List Char)), ls ≠ [] →
    (∀ l ∈ ls, l.all (fun c => !isLineBreak c) = true) →
    splitLines (joinNL ls ++ ['\n']) = ls := by
  intro ls
  induction ls with
  | nil => intro h; exact absurd rfl h
  | cons a t ih =>
    intro _ hbf
    cases t with
    | nil =>
      have : joinNL [a] ++ ['\n'] = a ++ '\n' :: [] := by simp [joinNL]
      rw [this, splitLines_append_newline a [] (hbf a (by simp))]
      rfl
    | cons b t' =>
      have hjoin : joinNL (a :: b :: t') ++ ['\n'] = a ++ '\n' :: (joinNL (b :: t') ++ ['\n']) := by
        rw [joinNL] <;> simp
      rw [hjoin, splitLines_append_newline a _ (hbf a (by simp)),
        ih (List.cons_ne_nil b t') (fun l hl => hbf l (List.mem_cons_of_mem _ hl))]

/-! ## C3: gateway-collision reassignment -/

theorem matchLit_self_append : ∀ (pat rest : List Char),
    matchLit (pat ++ rest) pat = some rest := by
  intro pat
  induction pat with
  | nil =>
    intro rest
    rw [List.nil_append]
    cases rest <;> rfl
  | cons p ps ih =>
    intro rest
    simp only [List.cons_append, matchLit, if_pos rfl]
    exact ih rest

theorem digit_not_pyspace {c : Char} (h : c.isDigit = true) : isPySpace c = false := by
  cases hps : isPySpace c with
  | false => rfl
  | true =>
    exfalso
    simp only [isPySpace, Bool.or_eq_true, decide_eq_true_eq] at hps
    rcases hps with ((((((((((h1 | h1) | h1) | h1) | h1) | h1) | h1) | h1) | h1) | h1) | h1) <;>
      (rw [h1] at h; exact absurd h (by decide))

theorem gwPass_spaces (g s : List Char) : ∀ (k fuel : Nat) (cs : List Char),
    gwPassGo g s (fuel + k) (List.replicate k ' ' ++ cs) =
      (List.replicate k ' ' ++ (gwPassGo g s fuel cs).1, (gwPassGo g s fuel cs).2) := by
  intro k
  induction k with
  | zero => intro fuel cs; simp
  | succ k ih =>
    intro fuel cs
    have hrep : List.replicate (k + 1) ' ' ++ cs = ' ' :: (List.replicate k ' ' ++ cs) := by
      simp [List.replicate_succ]
    rw [hrep]
    have hfuel : fuel + (k + 1) = (fuel + k) + 1 := by omega
    rw [hfuel]
    have hnone : matchLit (' ' :: (List.replicate k ' ' ++ cs)) (strC "ipv4_address:") =
        none := rfl
    simp only [gwPassGo, hnone]
    rw [ih fuel cs]
    simp [List.replicate_succ]

theorem gwPass_newline (g s : List Char) (fuel : Nat) :
    gwPassGo g s (fuel + 1) ['\n'] = (['\n'], 0) := by
  have hnone : matchLit ['\n'] (strC "ipv4_address:") = none := rfl
  simp only [gwPassGo, hnone]

theorem gwPass_canonical (gw safe : Nat) (hgw : gw < 4294967296) (fuel : Nat) :
    gwPassGo (ipChars gw) (ipChars safe) (fuel + 6)
      (List.replicate 4 ' ' ++ (strC "ipv4_address:" ++ (' ' :: (ipChars gw ++ ['\n'])))) =
      (List.replicate 4 ' ' ++ (strC "ipv4_address:" ++ (' ' :: (ipChars safe ++ ['\n']))), 1) := by
  have hfuel : fuel + 6 = (fuel + 2) + 4 := by omega
  rw [hfuel, gwPass_spaces]
  obtain ⟨d, ds, hip, hd⟩ := ipChars_head_digit gw hgw
  have hsplitws := takeWhile_all_append isPySpace [' '] (ipChars gw ++ ['\n'])
    (by intro c hc; simp at hc; subst hc; rfl)
    (by
      intro c cs h
      rw [hip] at h
      simp only [List.cons_append] at h
      injection h with h1 _
      subst h1
      exact digit_not_pyspace hd)
  have hX : strC "ipv4_address:" ++ (' ' :: (ipChars gw ++ ['\n'])) =
      'i' :: (strC "pv4_address:" ++ (' ' :: (ipChars gw ++ ['\n']))) := rfl
  have h1 : matchLit ('i' :: (strC "pv4_address:" ++ (' ' :: (ipChars gw ++ ['\n']))))
      (strC "ipv4_address:") = some (' ' :: (ipChars gw ++ ['\n'])) :=
    matchLit_self_append (strC "ipv4_address:") _
  have hdrop : (' ' :: (ipChars gw ++ ['\n'])).dropWhile isPySpace = ipChars gw ++ ['\n'] := by
    have := hsplitws.2
    simpa using this
  have htake : (' ' :: (ipChars gw ++ ['\n'])).takeWhile isPySpace = [' '] := by
    have := hsplitws.1
    simpa using this
  have h2 : matchLit (ipChars gw ++ ['\n']) (ipChars gw) = some ['\n'] :=
    matchLit_self_append _ _
  have hbok : boundaryOK ['\n'] = true := by decide
  rw [hX]
  have hstep : gwPassGo (ipChars gw) (ipChars safe) ((fuel + 1) + 1)
      ('i' :: (strC "pv4_address:" ++ (' ' :: (ipChars gw ++ ['\n'])))) =
      (strC "ipv4_address:" ++ [' '] ++ ipChars safe ++ ['\n'], 1) := by
    rw [gwPassGo]
    simp only [h1, hdrop, htake, h2, hbok, gwPass_newline, if_true]
  have hf2 : fuel + 2 = (fuel + 1) + 1 := by omega
  rw [hf2, hstep]
  simp [List.append_assoc]

/-- C3 amended: for every subnet `S`, `fix_gateway_ips_in_compose` rewrites
a static address equal to the gateway of `S` to `S.base + 10` when `S` has
more than 16 addresses and `S.base + 2` otherwise, records one finding for
the replacement, and the substitute is never equal to the gateway — but it
may collide with another address already declared in the document (see the
counterexample), so that clause of the claim is dropped. -/
theorem c3_gateway_reassignment (S : Subnet)
    (hov : S.base + safeOffset S < 4294967296) :
    S.base + safeOffset S ≠ S.base + 1 ∧
    safeOffset S = (if 16 < numAddresses S then 10 else 2) ∧
    fixGatewayIPs (strC "    ipv4_address: " ++ (ipChars (S.base + 1) ++ ['\n'])) [S] =
      .ok (strC "    ipv4_address: " ++ (ipChars (S.base + safeOffset S) ++ ['\n']),
        [GwFix.mk (S.base + 1) (S.base + safeOffset S) S]) := by
  have hoff : safeOffset S = 10 ∨ safeOffset S = 2 := by
    unfold safeOffset
    by_cases h : 16 < numAddresses S
    · exact Or.inl (by rw [if_pos h])
    · exact Or.inr (by rw [if_neg h])
  have hgw : S.base + 1 < 4294967296 := by omega
  refine ⟨by omega, rfl, ?_⟩
  have htext : strC "    ipv4_address: " ++ (ipChars (S.base + 1) ++ ['\n']) =
      List.replicate 4 ' ' ++ (strC "ipv4_address:" ++ (' ' :: (ipChars (S.base + 1) ++ ['\n']))) := by
    simp [strC, List.append_assoc]
  have htext2 : strC "    ipv4_address: " ++ (ipChars (S.base + safeOffset S) ++ ['\n']) =
      List.replicate 4 ' ' ++ (strC "ipv4_address:" ++
        (' ' :: (ipChars (S.base + safeOffset S) ++ ['\n']))) := by
    simp [strC, List.append_assoc]
  have hlen : (strC "    ipv4_address: " ++ (ipChars (S.base + 1) ++ ['\n'])).length =
      ((ipChars (S.base + 1)).length + 13) + 6 := by
    simp [strC]
  unfold fixGatewayIPs
  rw [fixGatewayPass, if_pos ⟨hgw, hov⟩]
  rw [hlen, htext]
  rw [gwPass_canonical (S.base + 1) (S.base + safeOffset S) hgw _]
  rw [htext2]
  rfl

/-- Witness for the amended C3 at `10.0.0.0/24` (gateway `10.0.0.1`,
substitute `10.0.0.10`). -/
theorem c3_gateway_reassignment_witness :
    (Subnet.mk 167772160 24).base + safeOffset (Subnet.mk 167772160 24) < 4294967296 ∧
    ((Subnet.mk 167772160 24).base + safeOffset (Subnet.mk 167772160 24) ≠
        (Subnet.mk 167772160 24).base + 1 ∧
      safeOffset (Subnet.mk 167772160 24) =
        (if 16 < numAddresses (Subnet.mk 167772160 24) then 10 else 2) ∧
      fixGatewayIPs (strC "    ipv4_address: " ++
          (ipChars ((Subnet.mk 167772160 24).base + 1) ++ ['\n'])) [Subnet.mk 167772160 24] =
        .ok (strC "    ipv4_address: " ++
            (ipChars ((Subnet.mk 167772160 24).base +
              safeOffset (Subnet.mk 167772160 24)) ++ ['\n']),
          [GwFix.mk ((Subnet.mk 167772160 24).base + 1)
            ((Subnet.mk 167772160 24).base + safeOffset (Subnet.mk 167772160 24))
            (Subnet.mk 167772160 24)])) :=
  ⟨by decide, c3_gateway_reassignment (Subnet.mk 167772160 24) (by decide)⟩

/-- C3 counterexample: with subnet `10.0.0.0/24`, a document declaring the
gateway `10.0.0.1` for one service and `10.0.0.10` for another gets the
gateway rewritten to `10.0.0.10` — equal to the other service's already
declared address in the same subnet, contradicting the claim's clause that
the replacement is never equal to any other declared address. -/
theorem c3_counterexample :
    fixGatewayIPs
      (strC "  svc1:\n    ipv4_address: 10.0.0.1\n  svc2:\n    ipv4_address: 10.0.0.10\n")
      [Subnet.mk 167772160 24] =
      .ok (strC "  svc1:\n    ipv4_address: 10.0.0.10\n  svc2:\n    ipv4_address: 10.0.0.10\n",
        [GwFix.mk 167772161 167772170 (Subnet.mk 167772160 24)]) ∧
    strC "10.0.0.10" ∈ findIPs
      (strC "  svc1:\n    ipv4_address: 10.0.0.1\n  svc2:\n    ipv4_address: 10.0.0.10\n") ∧
    parseIPString (strC "10.0.0.10") = some 167772170 ∧
    memSubnet (Subnet.mk 167772160 24) 167772170 = true ∧
    (167772170 : Nat) ≠ 167772161 := by decide

/-! ## C7: free-block search -/

theorem overlapsB_self (s : Subnet) : overlapsB s s = true := by
  have := numAddresses_pos s
  simp only [overlapsB, Bool.and_eq_true, decide_eq_true_eq]
  omega

theorem subnetsOfPool_pairwise (pool : Subnet) (np : Nat) :
    (subnetsOfPool pool np).Pairwise (fun a b => a.base < b.base) := by
  unfold subnetsOfPool
  rw [List.pairwise_map]
  apply (List.pairwise_lt_range _).imp
  intro a b hab
  have hpos : 0 < 2 ^ (32 - np) := Nat.pos_pow_of_pos _ (by norm_num)
  exact Nat.add_lt_add_left (Nat.mul_lt_mul_of_pos_right hab hpos) _

theorem pickFree_take (used : List Subnet) (count : Nat) :
    ∀ (cs acc : List Subnet), acc.length < count →
    pickFree used count acc cs =
      acc ++ (cs.filter (fun c => !used.any (fun u => overlapsB c u))).take (count - acc.length) := by
  intro cs
  induction cs with
  | nil => intro acc _; simp [pickFree]
  | cons c cs ih =>
    intro acc hacc
    by_cases hov : used.any (fun u => overlapsB c u) = true
    · rw [pickFree, if_pos hov, ih acc hacc]
      simp [List.filter_cons, hov]
    · rw [pickFree, if_neg hov]
      have hov' : (used.any fun u => overlapsB c u) = false := Bool.eq_false_iff.mpr hov
      by_cases hbreak : count ≤ acc.length + 1
      · rw [if_pos hbreak]
        have h1 : count - acc.length = 1 := by omega
        simp [List.filter_cons, hov', h1]
      · rw [if_neg hbreak]
        have hlen2 : (acc ++ [c]).length < count := by
          simp only [List.length_append, List.length_cons, List.length_nil]
          omega
        rw [ih (acc ++ [c]) hlen2]
        have h1 : count - acc.length = (count - (acc ++ [c]).length) + 1 := by
          simp only [List.length_append, List.length_cons, List.length_nil]
          omega
        simp [List.filter_cons, hov', h1, List.take_succ_cons]

/-- C7: free-block search over the pool `10.200.0.0/16` with prefix length
24: a successful result is the first `count` candidate blocks (in ascending
address order) that overlap no used network; in particular the result is
sorted by base address, never contains or overlaps an excluded entry; and
whenever fewer than `count` non-overlapping blocks exist the function fails
with the insufficient-space `RuntimeError`.  With exclude set
`{10.200.0.0/24}` and `count = 2` it returns exactly
`[10.200.1.0/24, 10.200.2.0/24]`. -/
theorem c7_pick_unused_subnets :
    (∀ (used : List Subnet) (count : Nat) (l : List Subnet), 0 < count →
      pickUnusedSubnets used count (Subnet.mk 180879360 16) 24 = .ok l →
      l = ((subnetsOfPool (Subnet.mk 180879360 16) 24).filter
            (fun c => !used.any (fun u => overlapsB c u))).take count ∧
      l.Pairwise (fun a b => a.base < b.base) ∧
      (∀ s ∈ l, ∀ u ∈ used, overlapsB s u = false) ∧
      (∀ s ∈ l, s ∉ used)) ∧
    (∀ (used : List Subnet) (count : Nat),
      ((subnetsOfPool (Subnet.mk 180879360 16) 24).filter
          (fun c => !used.any (fun u => overlapsB c u))).length < count →
      pickUnusedSubnets used count (Subnet.mk 180879360 16) 24 = .error .runtimeError) ∧
    pickUnusedSubnets [Subnet.mk 180879360 24] 2 (Subnet.mk 180879360 16) 24 =
      .ok [Subnet.mk 180879616 24, Subnet.mk 180879872 24] := by
  refine ⟨?_, ?_, by decide⟩
  · intro used count l hc hok
    have hchar := pickFree_take used count (subnetsOfPool (Subnet.mk 180879360 16) 24) []
      (by simpa using hc)
    simp only [List.nil_append, List.length_nil, Nat.sub_zero] at hchar
    rw [pickUnusedSubnets, if_neg (by norm_num)] at hok
    split at hok
    · cases hok
    · injection hok with hok
      subst hok
      rw [hchar]
      have hsub : List.Sublist
          (((subnetsOfPool (Subnet.mk 180879360 16) 24).filter
            (fun c => !used.any (fun u => overlapsB c u))).take count)
          (subnetsOfPool (Subnet.mk 180879360 16) 24) :=
        (List.take_sublist _ _).trans (List.filter_sublist _)
      have hmemF : ∀ s ∈ ((subnetsOfPool (Subnet.mk 180879360 16) 24).filter
          (fun c => !used.any (fun u => overlapsB c u))).take count,
          (!used.any (fun u => overlapsB s u)) = true := by
        intro s hs
        have := List.of_mem_filter ((List.take_sublist _ _).subset hs)
        simpa using this
      refine ⟨rfl, (subnetsOfPool_pairwise _ _).sublist hsub, ?_, ?_⟩
      · intro s hs u hu
        have := hmemF s hs
        simp only [Bool.not_eq_true', List.any_eq_false] at this
        exact Bool.eq_false_iff.mpr (this u hu)
      · intro s hs hmem
        have := hmemF s hs
        simp only [Bool.not_eq_true', List.any_eq_false] at this
        exact absurd (overlapsB_self s) (this s hmem)
  · intro used count hlt
    have hchar : (pickFree used count [] (subnetsOfPool (Subnet.mk 180879360 16) 24)).length <
        count := by
      by_cases hc : 0 < count
      · rw [pickFree_take used count _ [] (by simpa using hc)]
        simp only [List.nil_append, List.length_nil, Nat.sub_zero, List.length_take]
        omega
      · omega
    rw [pickUnusedSubnets, if_neg (by norm_num), if_pos hchar]

/-- Witness for C7: the general part instantiated at the concrete scenario
(pool `10.200.0.0/16`, exclude `{10.200.0.0/24}`, `count = 2`). -/
theorem c7_pick_unused_subnets_witness :
    0 < 2 ∧
    pickUnusedSubnets [Subnet.mk 180879360 24] 2 (Subnet.mk 180879360 16) 24 =
      .ok [Subnet.mk 180879616 24, Subnet.mk 180879872 24] ∧
    ([Subnet.mk 180879616 24, Subnet.mk 180879872 24].Pairwise
        (fun a b => a.base < b.base) ∧
      (∀ s ∈ [Subnet.mk 180879616 24, Subnet.mk 180879872 24],
        ∀ u ∈ [Subnet.mk 180879360 24], overlapsB s u = false) ∧
      (∀ s ∈ [Subnet.mk 180879616 24, Subnet.mk 180879872 24],
        s ∉ [Subnet.mk 180879360 24])) :=
  ⟨by decide, by decide,
    (c7_pick_unused_subnets.1 [Subnet.mk 180879360 24] 2
      [Subnet.mk 180879616 24, Subnet.mk 180879872 24] (by decide) (by decide)).2⟩

/-! ## C8: gateway finding excludes the outside-subnet finding -/

theorem decChars_all_digitDot : ∀ b < 256, (decChars b).all isDigitDot = true := by decide

theorem ipChars_all_digitDot (n : Nat) (hn : n < 4294967296) :
    ∀ c ∈ ipChars n, isDigitDot c = true := by
  have hb1 : n / 16777216 < 256 := by omega
  have hb2 : n / 65536 % 256 < 256 := Nat.mod_lt _ (by norm_num)
  have hb3 : n / 256 % 256 < 256 := Nat.mod_lt _ (by norm_num)
  have hb4 : n % 256 < 256 := Nat.mod_lt _ (by norm_num)
  have hdot : isDigitDot '.' = true := rfl
  have hall : (ipChars n).all isDigitDot = true := by
    unfold ipChars
    simp [List.all_append, List.all_cons, hdot, decChars_all_digitDot _ hb1,
      decChars_all_digitDot _ hb2, decChars_all_digitDot _ hb3, decChars_all_digitDot _ hb4]
  exact fun c hc => List.all_eq_true.mp hall c hc

theorem digitDot_not_break {c : Char} (h : isDigitDot c = true) : isLineBreak c = false := by
  cases hb : isLineBreak c with
  | false => rfl
  | true =>
    exfalso
    simp only [isLineBreak, Bool.or_eq_true, decide_eq_true_eq] at hb
    simp only [isDigitDot, Bool.or_eq_true, decide_eq_true_eq] at h
    rcases hb with (((((((((h1 | h1) | h1) | h1) | h1) | h1) | h1) | h1) | h1) | h1) <;>
      (rw [h1] at h
       rcases h with h | h
       · exact absurd h (by decide)
       · exact absurd h (by decide))

theorem ipChars_breakfree (n : Nat) (hn : n < 4294967296) :
    (ipChars n).all (fun c => !isLineBreak c) = true := by
  rw [List.all_eq_true]
  intro c hc
  simp [digitDot_not_break (ipChars_all_digitDot n hn c hc)]

theorem ipChars_ne_nil (n : Nat) (hn : n < 4294967296) : ipChars n ≠ [] := by
  obtain ⟨c, cs, hip, _⟩ := ipChars_head_digit n hn
  rw [hip]
  exact List.cons_ne_nil _ _

/-- On a subnet list in which every subnet containing the address has a
non-overflowing gateway, the subnet loop of `lint_compose_ips` succeeds,
returning the containment flag and the gateway-matching subnets in
order. -/
theorem gwScan_ok (ip : Nat) (subnets : List Subnet)
    (hsafe : ∀ net ∈ subnets, memSubnet net ip = true → net.base + 1 < 4294967296) :
    gwScan ip subnets =
      .ok (subnets.any (fun net => memSubnet net ip),
        subnets.filter (fun net => memSubnet net ip && ip == net.base + 1)) := by
  induction subnets with
  | nil => rfl
  | cons net rest ih =>
    have ih' := ih (fun n hn h => hsafe n (List.mem_cons_of_mem _ hn) h)
    cases hm : memSubnet net ip with
    | true =>
      have hlt := hsafe net (List.mem_cons_self _ _) hm
      rw [gwScan, if_pos hm, if_pos hlt, ih']
      by_cases hgw : (ip == net.base + 1) = true
      · simp [List.any_cons, List.filter_cons, hm, hgw]
      · simp [List.any_cons, List.filter_cons, hm, hgw]
    | false =>
      rw [gwScan, if_neg (by simp [hm]), ih']
      simp [List.any_cons, List.filter_cons, hm]

/-- C8 (amended): for every statically declared service address equal to
the gateway of a discovered subnet containing it, PROVIDED no discovered
subnet containing the address has base 255.255.255.255 (whose gateway
computation `network_address + 1` raises an uncaught `ValueError`),
`lint_compose_ips` returns a findings list with exactly one
gateway-collision finding for that address and exactly zero
outside-any-subnet findings for it (the service document declares the
address under service `r1`). -/
theorem c8_gateway_finding_exclusive (subnets : List Subnet) (a : Nat)
    (ha : a < 4294967296)
    (hgw : ∃ S ∈ subnets, memSubnet S a = true ∧ a = S.base + 1)
    (hsafe : ∀ S ∈ subnets, memSubnet S a = true → S.base + 1 < 4294967296) :
    ∃ fs, lintComposeIPs (strC "services:\n  r1:\n    ipv4_address: " ++
        (ipChars a ++ strC " #x\n")) subnets = .ok fs ∧
      fs.countP Finding.isGatewayHit = 1 ∧
      fs.countP Finding.isOutsideHit = 0 := by
  obtain ⟨S, hS, hmem, heq⟩ := hgw
  obtain ⟨d, ds, hip, hd⟩ := ipChars_head_digit a ha
  -- the third line of the document and its stripped form
  have hdoc : strC "services:\n  r1:\n    ipv4_address: " ++ (ipChars a ++ strC " #x\n") =
      strC "services:" ++ '\n' :: (strC "  r1:" ++ '\n' ::
        ((strC "    ipv4_address: " ++ (ipChars a ++ strC " #x")) ++ ['\n'])) := by
    simp [strC, List.append_assoc]
  have hl3free : ((strC "    ipv4_address: " ++ (ipChars a ++ strC " #x")).all
      (fun c => !isLineBreak c)) = true := by
    simp only [List.all_append]
    rw [ipChars_breakfree a ha]
    decide
  have hsplit : splitLines (strC "services:\n  r1:\n    ipv4_address: " ++
      (ipChars a ++ strC " #x\n")) =
      [strC "services:", strC "  r1:",
        strC "    ipv4_address: " ++ (ipChars a ++ strC " #x")] := by
    rw [hdoc]
    rw [splitLines_append_newline _ _ (by decide)]
    rw [splitLines_append_newline _ _ (by decide)]
    have := splitLines_append_newline
      (strC "    ipv4_address: " ++ (ipChars a ++ strC " #x")) [] hl3free
    simpa using this
  -- the stripped third line
  have t1 : isPySpace ' ' = true := rfl
  have t2 : isPySpace 'i' = false := rfl
  have t3 : isPySpace 'x' = false := rfl
  have hl : (strC "    ipv4_address: " ++ (ipChars a ++ strC " #x")).dropWhile isPySpace =
      strC "ipv4_address: " ++ (ipChars a ++ strC " #x") := by
    have hshape : strC "    ipv4_address: " ++ (ipChars a ++ strC " #x") =
        ' ' :: (' ' :: (' ' :: (' ' :: ('i' ::
          (strC "pv4_address: " ++ (ipChars a ++ strC " #x")))))) :=
      rfl
    rw [hshape]
    simp only [List.dropWhile_cons, t1, t2, eq_self_iff_true, if_true,
      Bool.false_eq_true, if_false]
    rfl
  have hMB : strC "ipv4_address: " ++ (ipChars a ++ strC " #x") =
      (strC "ipv4_address: " ++ (ipChars a ++ strC " #")) ++ ['x'] := by
    simp [strC, List.append_assoc]
  have hrev : (strC "ipv4_address: " ++ (ipChars a ++ strC " #x")).reverse =
      'x' :: (strC "ipv4_address: " ++ (ipChars a ++ strC " #")).reverse := by
    rw [hMB]
    simp
  have hstrip : stripPy (strC "    ipv4_address: " ++ (ipChars a ++ strC " #x")) =
      strC "ipv4_address: " ++ (ipChars a ++ strC " #x") := by
    unfold stripPy
    rw [hl, hrev]
    simp only [List.dropWhile_cons, t3, Bool.false_eq_true, if_false]
    rw [← hrev, List.reverse_reverse]
  -- the captured token of the third line
  have hwsplit := takeWhile_all_append isPySpace [' '] (ipChars a ++ strC " #x")
    (by intro c hc; simp at hc; subst hc; rfl)
    (by
      intro c cs h
      rw [hip] at h
      simp only [List.cons_append] at h
      injection h with h1 _
      subst h1
      exact digit_not_pyspace hd)
  have htok := takeWhile_all_append isDigitDot (ipChars a) (strC " #x")
    (ipChars_all_digitDot a ha)
    (by intro c cs h; injection h with h1 _; subst h1; rfl)
  have hlit : matchLit ('i' :: (strC "pv4_address: " ++ (ipChars a ++ strC " #x")))
      (strC "ipv4_address:") = some (' ' :: (ipChars a ++ strC " #x")) :=
    matchLit_self_append (strC "ipv4_address:") (' ' :: (ipChars a ++ strC " #x"))
  have hsearch : searchIPv4 (strC "ipv4_address: " ++ (ipChars a ++ strC " #x")).length
      (strC "ipv4_address: " ++ (ipChars a ++ strC " #x")) = some (ipChars a) := by
    have hcons : strC "ipv4_address: " ++ (ipChars a ++ strC " #x") =
        'i' :: (strC "pv4_address: " ++ (ipChars a ++ strC " #x")) := rfl
    rw [hcons, List.length_cons, searchIPv4, hlit]
    have hdw : (' ' :: (ipChars a ++ strC " #x")).dropWhile isPySpace =
        ipChars a ++ strC " #x" := by
      have := hwsplit.2
      simpa using this
    simp only [hdw, htok.1]
    rw [if_neg (by simp [List.isEmpty_iff, ipChars_ne_nil a ha])]
  -- evaluating the per-address findings
  have hparse : parseIPString (ipChars a) = some a := by
    rw [ipChars_eq_quadTok]
    exact parseIPString_ipChars a ha
  have hany : (subnets.any fun net => memSubnet net a) = true :=
    List.any_eq_true.mpr ⟨S, hS, hmem⟩
  have hfilne : subnets.filter (fun net => memSubnet net a && a == net.base + 1) ≠ [] := by
    apply List.ne_nil_of_mem (a := S)
    rw [List.mem_filter]
    refine ⟨hS, ?_⟩
    rw [hmem]
    simp [heq]
  have hcheck : checkAddrFindings (some (strC "r1")) (ipChars a) subnets =
      .ok [Finding.gatewayCollision (some (strC "r1")) a
        (subnets.filter (fun net => memSubnet net a && a == net.base + 1))] := by
    unfold checkAddrFindings
    simp only [hparse, gwScan_ok a subnets hsafe, hany, Bool.not_true,
      Bool.false_eq_true, if_false, List.nil_append]
    rw [if_pos hfilne]
  -- the three line steps
  have hl1 : lintLine subnets false none (strC "services:") = .ok (true, none, []) := rfl
  have hl2 : lintLine subnets true none (strC "  r1:") =
      .ok (true, some (strC "r1"), []) := rfl
  have hc1 : matchHeaderLine (strC "ipv4_address: " ++ (ipChars a ++ strC " #x"))
      (strC "services:") = false := rfl
  have hc3 : matchTwoSpaceKey (strC "    ipv4_address: " ++ (ipChars a ++ strC " #x")) =
      none := rfl
  have hhead : ((strC "    ipv4_address: " ++ (ipChars a ++ strC " #x")).head? ==
      some ' ') = true := rfl
  have hline3 : lintLine subnets true (some (strC "r1"))
      (strC "    ipv4_address: " ++ (ipChars a ++ strC " #x")) =
      .ok (true, some (strC "r1"),
        [Finding.gatewayCollision (some (strC "r1")) a
          (subnets.filter (fun net => memSubnet net a && a == net.base + 1))]) := by
    unfold lintLine
    rw [hstrip, hc1]
    simp only [Bool.false_eq_true, if_false, hhead, Bool.not_true, Bool.and_false, hc3,
      Option.isSome_none, Bool.and_false, hsearch, hcheck]
  -- the findings of the whole document
  have hfind : lintComposeIPs (strC "services:\n  r1:\n    ipv4_address: " ++
      (ipChars a ++ strC " #x\n")) subnets =
      .ok [Finding.gatewayCollision (some (strC "r1")) a
        (subnets.filter (fun net => memSubnet net a && a == net.base + 1))] := by
    unfold lintComposeIPs
    rw [hsplit]
    simp only [lintGo, hl1, hl2, hline3, List.nil_append, List.append_nil]
  refine ⟨[Finding.gatewayCollision (some (strC "r1")) a
      (subnets.filter (fun net => memSubnet net a && a == net.base + 1))],
    hfind, ?_, ?_⟩
  · simp [List.countP_cons, Finding.isGatewayHit]
  · simp [List.countP_cons, Finding.isOutsideHit]

/-- Witness for C8: gateway `172.20.0.1` of `172.20.0.0/24` declared as a
static address yields one gateway finding and no outside finding. -/
theorem c8_gateway_finding_exclusive_witness :
    2886991873 < 4294967296 ∧
    (∃ S ∈ [Subnet.mk 2886991872 24], memSubnet S 2886991873 = true ∧
      2886991873 = S.base + 1) ∧
    (∀ S ∈ [Subnet.mk 2886991872 24], memSubnet S 2886991873 = true →
      S.base + 1 < 4294967296) ∧
    (∃ fs, lintComposeIPs (strC "services:\n  r1:\n    ipv4_address: " ++
        (ipChars 2886991873 ++ strC " #x\n")) [Subnet.mk 2886991872 24] = .ok fs ∧
      fs.countP Finding.isGatewayHit = 1 ∧
      fs.countP Finding.isOutsideHit = 0) :=
  ⟨by decide, by decide, by decide,
    c8_gateway_finding_exclusive [Subnet.mk 2886991872 24] 2886991873 (by decide)
      (by decide) (by decide)⟩

/-- Counterexample to C8 as stated: the declared address 255.255.255.255
equals the gateway of the discovered subnet 255.255.255.254/31 that
contains it, and both discovered subnets are well-formed networks, yet
`lint_compose_ips` raises an uncaught `ValueError` — computing the
gateway `network_address + 1` of the containing subnet
255.255.255.255/32 overflows — instead of producing any finding. -/
theorem c8_counterexample :
    memSubnet (Subnet.mk 4294967294 31) 4294967295 = true ∧
    4294967295 = (Subnet.mk 4294967294 31).base + 1 ∧
    (Subnet.mk 4294967294 31).Valid ∧
    (Subnet.mk 4294967295 32).Valid ∧
    lintComposeIPs (strC "services:\n  r1:\n    ipv4_address: 255.255.255.255\n")
      [Subnet.mk 4294967294 31, Subnet.mk 4294967295 32] = .error .valueError := by
  refine ⟨by decide, by decide, by decide, by decide, by decide⟩

/-- C6: `dedupe_networks_section` is idempotent: applying it twice to any
services document text yields the same result as applying it once. -/
theorem c6_dedupe_idempotent (text : List Char) :
    dedupeNetworksSection (dedupeNetworksSection text) = dedupeNetworksSection text := by
  unfold dedupeNetworksSection
  by_cases hnil : dedupeGo (splitLines text).length false [] (splitLines text) = []
  · rw [hnil]
    rfl
  · have hbf : ∀ l ∈ dedupeGo (splitLines text).length false [] (splitLines text),
        l.all (fun c => !isLineBreak c) = true := by
      intro l hl
      exact splitLinesGo_breakfree text.length text (le_refl _) l
        (dedupeGo_subset _ _ _ _ l hl)
    rw [splitLines_joinNL _ hnil hbf,
      dedupeGo_idem (splitLines text).length (splitLines text) false [] (le_refl _)]

/-! ## C5: the three-node repair assignment -/

/-- C5: three-node repair assignment.  For every compose text whose first
two discovered subnets are `A` and `B`, the mapping computed by
`patch_service_networks` is exactly r1@net_ab = A.base+10,
r2@net_ab = A.base+11, r2@net_bc = B.base+10, r3@net_bc = B.base+11; and
on the concrete 172.20.0.0/24 / 172.20.1.0/24 scenario the three service
blocks receive those addresses and `align_frr_to_mapping` rewrites every
`neighbor <ip> remote-as 6500x` address in the per-router configs to the
corresponding peer's newly computed address. -/
theorem c5_three_node_repair :
    (∀ (text t : List Char) (A B : Subnet) (rest : List Subnet) (m : RouterMap),
      patchServiceNetworks text (A :: B :: rest) = .ok (t, m) →
      m = RouterMap.mk (A.base + 10) (A.base + 11) (B.base + 10) (B.base + 11)) ∧
    patchServiceNetworks c5ComposeDoc
        [Subnet.mk 2886991872 24, Subnet.mk 2886992128 24] =
      .ok (c5ComposeExpected,
        RouterMap.mk 2886991882 2886991883 2886992138 2886992139) ∧
    alignFrrR1 (RouterMap.mk 2886991882 2886991883 2886992138 2886992139) c5R1Conf =
      strC "router bgp 65001\n neighbor 172.20.0.11 remote-as 65002\n" ∧
    alignFrrR2 (RouterMap.mk 2886991882 2886991883 2886992138 2886992139) c5R2Conf =
      strC "router bgp 65002\n neighbor 172.20.0.10 remote-as 65001\n neighbor 172.20.1.11 remote-as 65003\n" ∧
    alignFrrR3 (RouterMap.mk 2886991882 2886991883 2886992138 2886992139) c5R3Conf =
      strC "router bgp 65003\n neighbor 172.20.1.10 remote-as 65002\n" := by
  refine ⟨?_, by decide, by decide, by decide, by decide⟩
  intro text t A B rest m hok
  simp only [patchServiceNetworks] at hok
  split at hok
  · rw [Except.ok.injEq, Prod.mk.injEq] at hok
    exact hok.2.symm
  · cases hok

/-- Witness for C5: the universally quantified mapping statement applied
to the concrete scenario. -/
theorem c5_three_node_repair_witness :
    patchServiceNetworks c5ComposeDoc
        [Subnet.mk 2886991872 24, Subnet.mk 2886992128 24] =
      .ok (c5ComposeExpected,
        RouterMap.mk 2886991882 2886991883 2886992138 2886992139) ∧
    RouterMap.mk 2886991882 2886991883 2886992138 2886992139 =
      RouterMap.mk (2886991872 + 10) (2886991872 + 11)
        (2886992128 + 10) (2886992128 + 11) :=
  ⟨by decide,
    c5_three_node_repair.1 c5ComposeDoc c5ComposeExpected
      (Subnet.mk 2886991872 24) (Subnet.mk 2886992128 24) []
      (RouterMap.mk 2886991882 2886991883 2886992138 2886992139) (by decide)⟩

/-! ## C9: fatal errors precede all writes -/

/-- C9: fatal errors precede all writes.  Whenever subnet discovery on
the compose text succeeds but yields only one subnet (fewer than the two
required), `rewrite_networks` fails with `RuntimeError` having performed
no file write at all, so the compose file and every per-router FRR
config are left byte-identical. -/
theorem c9_fatal_before_writes (composeText : List Char)
    (frr : List (Option (List Char))) (newAb newBc s : Subnet) (fixGw : Bool)
    (hdisc : discoverSubnets composeText = .ok [s]) :
    rewriteNetworksRun composeText frr newAb newBc fixGw =
      (.error .runtimeError, []) := by
  unfold rewriteNetworksRun
  simp only [hdisc]

/-- Witness for C9: a compose text with exactly one `subnet:` entry
(10.0.0.0/24). -/
theorem c9_fatal_before_writes_witness :
    discoverSubnets
        (strC "    ipam:\n      config:\n        - subnet: 10.0.0.0/24\n") =
      .ok [Subnet.mk 167772160 24] ∧
    rewriteNetworksRun
        (strC "    ipam:\n      config:\n        - subnet: 10.0.0.0/24\n")
        [] (Subnet.mk 180879616 24) (Subnet.mk 180879872 24) true =
      (.error .runtimeError, []) :=
  ⟨by decide,
    c9_fatal_before_writes
      (strC "    ipam:\n      config:\n        - subnet: 10.0.0.0/24\n")
      [] (Subnet.mk 180879616 24) (Subnet.mk 180879872 24)
      (Subnet.mk 167772160 24) true (by decide)⟩

end BGPLab
